import Mathlib

/-!
Verification development for the Jira-structure-checker repository
(`fetch_jira_issues.py`, `app.py`, `analyze_data_quality.py`).

The Python code is shallowly embedded:
* JSON values (the loosely-typed issue records) become the inductive `JVal`;
* Python dictionaries become association lists in encounter (insertion) order,
  which is exactly the iteration order of a CPython `dict`;
* operations that can raise (`.get` on `None`, `.strip()` on a non-string,
  division by zero, ...) return `Except PyErr _`; a `.error` value models an
  uncaught Python exception of the corresponding class;
* calendar dates are represented by their proleptic-Gregorian day ordinal
  (days since 1970-01-01, as produced by the civil-calendar algorithms below),
  which is order-isomorphic to `datetime.date` comparison;
* `datetime.fromisoformat` is modelled for the pre-3.11 grammar
  `YYYY-MM-DD[<sep>HH[:MM[:SS[.fff[fff]]]][+HH:MM[:SS]]]` that the code relies
  on, with any single separator character, exactly the shapes the sources
  feed to it;
* string manipulation is done on `List Char` so that every definition is
  structurally recursive and kernel-computable.
-/

namespace JiraCheck

/-- Python exception classes that the embedded code can raise;
`abort500` is Flask's `abort(500)` used by `load_issues`. -/
inductive PyErr where
  | attributeError
  | typeError
  | keyError
  | valueError
  | zeroDivisionError
  | abort500
deriving Repr, DecidableEq

/-- A JSON value as loaded by `json.load`: the loosely-typed issue records. -/
inductive JVal where
  | nul
  | bool (b : Bool)
  | num (n : Int)
  | str (s : String)
  | arr (xs : List JVal)
  | obj (kvs : List (String × JVal))
deriving Repr

/-- Python truthiness of a JSON value (`bool(v)`): `None`, `False`, `0`, `""`,
`[]` and `{}` are falsy, everything else truthy. -/
def JVal.truthy : JVal → Bool
  | .nul => false
  | .bool b => b
  | .num n => n != 0
  | .str s => s != ""
  | .arr xs => !xs.isEmpty
  | .obj kvs => !kvs.isEmpty

/-- First binding of a key in an association list (CPython dicts have unique
keys, so this is the dict lookup). -/
def alistFind (kvs : List (String × JVal)) (k : String) : Option JVal :=
  match kvs with
  | [] => none
  | (k', v) :: rest => if k' = k then some v else alistFind rest k

/-- Python `d.get(k, default)`: raises `AttributeError` unless `d` is a dict. -/
def pyGetD (v : JVal) (k : String) (d : JVal) : Except PyErr JVal :=
  match v with
  | .obj kvs => .ok ((alistFind kvs k).getD d)
  | _ => .error .attributeError

/-- Python `d[k]` subscription on a JSON value (only the dict case can
succeed here; string/list subscription by a string key raises `TypeError`). -/
def pySubscript (v : JVal) (k : String) : Except PyErr JVal :=
  match v with
  | .obj kvs =>
    match alistFind kvs k with
    | some w => .ok w
    | none => .error .keyError
  | _ => .error .typeError

/-- Python substring test `pat in s` over char lists. -/
def chContainsSub (pat : List Char) (s : List Char) : Bool :=
  s.tails.any (fun t => pat.isPrefixOf t)

/-- Python `k in v` for a string `k`: key test on dicts, substring test on
strings, membership on lists; `TypeError` for the non-container values. -/
def pyContains (v : JVal) (k : String) : Except PyErr Bool :=
  match v with
  | .obj kvs => .ok (kvs.any (fun p => p.1 = k))
  | .str s => .ok (chContainsSub k.data s.data)
  | .arr xs =>
    .ok (xs.any (fun x => match x with | .str t => t = k | _ => false))
  | _ => .error .typeError

/-- Python `d.items()`: only dicts have `.items`. -/
def pyItems (v : JVal) : Except PyErr (List (String × JVal)) :=
  match v with
  | .obj kvs => .ok kvs
  | _ => .error .attributeError

/-- Python iteration `for x in v`: lists yield elements, strings yield their
characters (as one-char strings), dicts yield their keys; other values raise
`TypeError`. -/
def pyIterate (v : JVal) : Except PyErr (List JVal) :=
  match v with
  | .arr xs => .ok xs
  | .str s => .ok (s.data.map (fun c => .str (String.mk [c])))
  | .obj kvs => .ok (kvs.map (fun p => .str p.1))
  | _ => .error .typeError

/-- Python short-circuit `a or b` on values. -/
def pyOr (a b : JVal) : JVal :=
  if a.truthy then a else b

/-! ### Character-level string helpers

All helpers mirror the CPython semantics of the string methods that the
sources use, restricted to the ASCII data the code manipulates. -/

/-- Digit test, `'0'..'9'`. -/
def isDigitCh (c : Char) : Bool := '0' ≤ c && c ≤ '9'

/-- Numeric value of a digit character. -/
def digitVal (c : Char) : Nat := c.toNat - 48

/-- ASCII lower-casing of one character, as `str.lower` acts on ASCII. -/
def lowChar (c : Char) : Char :=
  if 'A' ≤ c && c ≤ 'Z' then Char.ofNat (c.toNat + 32) else c

/-- Python `s.lower()` (ASCII fragment). -/
def chLower (s : List Char) : List Char := s.map lowChar

/-- Python whitespace as used by `str.strip()` with no argument. -/
def isPySpace (c : Char) : Bool :=
  c = ' ' || c = '\t' || c = '\n' || c = '\r' || c = '\x0b' || c = '\x0c'

/-- Python `s.strip()`. -/
def chStrip (s : List Char) : List Char :=
  (s.dropWhile isPySpace).reverse.dropWhile isPySpace |>.reverse

/-- Lexicographic comparison of char lists by code point: Python `s < t`. -/
def chLt : List Char → List Char → Bool
  | [], [] => false
  | [], _ :: _ => true
  | _ :: _, [] => false
  | a :: as, b :: bs => if a = b then chLt as bs else decide (a < b)

/-- Python `s < t` on strings. -/
def pyStrLt (a b : String) : Bool := chLt a.data b.data

/-- Python `s.split(sep)` for a one-character separator. -/
def chSplitChar (sep : Char) : List Char → List (List Char)
  | [] => [[]]
  | c :: rest =>
    let r := chSplitChar sep rest
    if c = sep then [] :: r
    else
      match r with
      | g :: gs => (c :: g) :: gs
      | [] => [[c]]

/-- Python `sep.join(groups)` for a one-character separator. -/
def chJoinChar (sep : Char) : List (List Char) → List Char
  | [] => []
  | [g] => g
  | g :: gs => g ++ sep :: chJoinChar sep gs

/-- Fuel-driven worker for `chReplace`; with fuel at least the length of the
input it replaces every occurrence of `pat` left to right, exactly like
Python `s.replace(pat, rep)` for a non-empty `pat`.  The fuel-exhausted
branch is unreachable at the call sites below. -/
def chReplaceF (pat rep : List Char) : Nat → List Char → List Char
  | _, [] => []
  | 0, s => s
  | n + 1, c :: rest =>
    if pat.isPrefixOf (c :: rest) then
      rep ++ chReplaceF pat rep n (List.drop pat.length (c :: rest))
    else
      c :: chReplaceF pat rep n rest

/-- Python `s.replace(pat, rep)` for non-empty `pat`. -/
def chReplace (pat rep s : List Char) : List Char :=
  chReplaceF pat rep s.length s

/-- Python `s.startswith(p)`. -/
def chStartsWith (p s : List Char) : Bool := p.isPrefixOf s

/-- Python `int(s)` for a string: optional surrounding whitespace, optional
sign, then at least one ASCII digit (digit-group underscores and non-ASCII
digits are not modelled; no source-relevant input uses them).  `none` models
the `ValueError` that `int` raises otherwise. -/
def pyIntOfStr (s : List Char) : Option Int :=
  let t := chStrip s
  let core : List Char × Bool :=
    match t with
    | '-' :: rest => (rest, true)
    | '+' :: rest => (rest, false)
    | _ => (t, false)
  if core.1 ≠ [] && core.1.all isDigitCh then
    let n : Nat := core.1.foldl (fun a c => a * 10 + digitVal c) 0
    some (if core.2 then -(n : Int) else (n : Int))
  else none

/-- Value of a list of digit characters (used by the ISO parsers). -/
def digitsVal (cs : List Char) : Nat :=
  cs.foldl (fun a c => a * 10 + digitVal c) 0

/-! ### Civil-calendar arithmetic

Standard proleptic-Gregorian conversions between (year, month, day) and the
day ordinal relative to 1970-01-01, used to model `datetime.date` ordering,
`datetime.utcfromtimestamp` and `strftime("%Y-%m-%d")`. -/

/-- Leap-year test of the Gregorian calendar. -/
def isLeap (y : Int) : Bool :=
  (Int.emod y 4 = 0 && Int.emod y 100 ≠ 0) || Int.emod y 400 = 0

/-- Number of days in a month. -/
def daysInMonth (y : Int) (m : Nat) : Nat :=
  if m = 2 then (if isLeap y then 29 else 28)
  else if m = 4 || m = 6 || m = 9 || m = 11 then 30
  else 31

/-- Validity of a (year, month, day) triple in `datetime.date`'s range. -/
def dateValid (y : Int) (m d : Nat) : Bool :=
  1 ≤ y && y ≤ 9999 && 1 ≤ m && m ≤ 12 && 1 ≤ d && d ≤ daysInMonth y m

/-- Day ordinal (days since 1970-01-01) of a civil date. -/
def daysFromCivil (y : Int) (m d : Nat) : Int :=
  let y2 : Int := if m ≤ 2 then y - 1 else y
  let era : Int := Int.fdiv y2 400
  let yoe : Int := y2 - era * 400
  let mp : Int := (m : Int) + (if m > 2 then -3 else 9)
  let doy : Int := (153 * mp + 2) / 5 + (d : Int) - 1
  let doe : Int := yoe * 365 + yoe / 4 - yoe / 100 + doy
  era * 146097 + doe - 719468

/-- Civil date of a day ordinal (inverse of `daysFromCivil`). -/
def civilFromDays (z0 : Int) : Int × Nat × Nat :=
  let z := z0 + 719468
  let era : Int := Int.fdiv z 146097
  let doe : Int := z - era * 146097
  let yoe : Int := (doe - doe / 1460 + doe / 36524 - doe / 146096) / 365
  let y : Int := yoe + era * 400
  let doy : Int := doe - (365 * yoe + yoe / 4 - yoe / 100)
  let mp : Int := (5 * doy + 2) / 153
  let d : Int := doy - (153 * mp + 2) / 5 + 1
  let m : Int := if mp < 10 then mp + 3 else mp - 9
  ((if m ≤ 2 then y + 1 else y), m.toNat, d.toNat)

/-- Left-pad a digit string with zeros. -/
def padZero (w : Nat) (cs : List Char) : List Char :=
  List.replicate (w - cs.length) '0' ++ cs

/-- Decimal digits of a natural number. -/
def natDigits (n : Nat) : List Char :=
  (Nat.toDigits 10 n)

/-- `strftime("%Y-%m-%d")` of a civil date (zero-padded fields). -/
def formatDate (y : Int) (m d : Nat) : String :=
  String.mk (padZero 4 (natDigits y.toNat) ++ '-' ::
    padZero 2 (natDigits m) ++ '-' :: padZero 2 (natDigits d))

/-! ### The `datetime.fromisoformat` model (pre-3.11 grammar) -/

/-- Parse exactly `YYYY-MM-DD` into a valid civil date. -/
def parseIsoDate (cs : List Char) : Option (Int × Nat × Nat) :=
  match cs with
  | [y1, y2, y3, y4, '-', m1, m2, '-', d1, d2] =>
    if [y1, y2, y3, y4, m1, m2, d1, d2].all isDigitCh then
      let y : Int := (digitsVal [y1, y2, y3, y4] : Int)
      let m := digitsVal [m1, m2]
      let d := digitsVal [d1, d2]
      if dateValid y m d then some (y, m, d) else none
    else none
  | _ => none

/-- Parse `HH[:MM[:SS[.fff or .ffffff]]]` into seconds in the day (the
fractional part is validated but dropped: the code only ever compares whole
dates and whole seconds). -/
def parseIsoTime (cs : List Char) : Option Nat :=
  match cs with
  | [h1, h2] =>
    if [h1, h2].all isDigitCh && digitsVal [h1, h2] ≤ 23 then
      some (digitsVal [h1, h2] * 3600)
    else none
  | [h1, h2, ':', m1, m2] =>
    if [h1, h2, m1, m2].all isDigitCh && digitsVal [h1, h2] ≤ 23 &&
        digitsVal [m1, m2] ≤ 59 then
      some (digitsVal [h1, h2] * 3600 + digitsVal [m1, m2] * 60)
    else none
  | h1 :: h2 :: ':' :: m1 :: m2 :: ':' :: s1 :: s2 :: rest =>
    let frac : Bool :=
      match rest with
      | [] => true
      | '.' :: fs => fs.all isDigitCh && (fs.length = 3 || fs.length = 6)
      | _ => false
    if [h1, h2, m1, m2, s1, s2].all isDigitCh && digitsVal [h1, h2] ≤ 23 &&
        digitsVal [m1, m2] ≤ 59 && digitsVal [s1, s2] ≤ 59 && frac then
      some (digitsVal [h1, h2] * 3600 + digitsVal [m1, m2] * 60 +
        digitsVal [s1, s2])
    else none
  | _ => none

/-- Parse a UTC-offset suffix `HH:MM[:SS]` into seconds. -/
def parseIsoOffset (cs : List Char) : Option Int :=
  match cs with
  | [h1, h2, ':', m1, m2] =>
    if [h1, h2, m1, m2].all isDigitCh && digitsVal [h1, h2] ≤ 23 &&
        digitsVal [m1, m2] ≤ 59 then
      some ((digitsVal [h1, h2] * 3600 + digitsVal [m1, m2] * 60 : Nat) : Int)
    else none
  | [h1, h2, ':', m1, m2, ':', s1, s2] =>
    if [h1, h2, m1, m2, s1, s2].all isDigitCh && digitsVal [h1, h2] ≤ 23 &&
        digitsVal [m1, m2] ≤ 59 && digitsVal [s1, s2] ≤ 59 then
      some ((digitsVal [h1, h2] * 3600 + digitsVal [m1, m2] * 60 +
        digitsVal [s1, s2] : Nat) : Int)
    else none
  | _ => none

/-- Split a time string at the first `+`/`-`, the start of an offset
(realistic inputs carry at most one sign character). -/
def splitTzSign : List Char → List Char × Option (Bool × List Char)
  | [] => ([], none)
  | c :: rest =>
    if c = '+' then ([], some (false, rest))
    else if c = '-' then ([], some (true, rest))
    else
      let r := splitTzSign rest
      (c :: r.1, r.2)

/-- The `datetime.fromisoformat` model: returns the civil date, the seconds
in the day, and the UTC offset in seconds when one is present.  The
character at index 10 is an arbitrary separator, as in the CPython parser. -/
def pyFromIso (cs : List Char) : Option (Int × Nat × Nat × Nat × Option Int) :=
  match parseIsoDate (cs.take 10) with
  | none => none
  | some (y, m, d) =>
    match cs.drop 10 with
    | [] => some (y, m, d, 0, none)
    | [_] => some (y, m, d, 0, none)
    | _ :: t =>
      let (tpart, tz) := splitTzSign t
      match parseIsoTime tpart with
      | none => none
      | some sod =>
        match tz with
        | none => some (y, m, d, sod, none)
        | some (neg, offCs) =>
          match parseIsoOffset offCs with
          | none => none
          | some off => some (y, m, d, sod, some (if neg then -off else off))

/-- Whether `datetime.fromisoformat` accepts the string. -/
def pyFromIsoOk (cs : List Char) : Bool := (pyFromIso cs).isSome

/-- Total variant of `d.get(k, default)`, used only where the source value is
known to be a dict (specification-side helpers and sort keys). -/
def jGetD (v : JVal) (k : String) (d : JVal) : JVal :=
  match v with
  | .obj kvs => (alistFind kvs k).getD d
  | _ => d

/-! ### Stable sorting

CPython's `sorted` is an ascending stable sort; any two stable sorts of the
same list under the same key agree, so the insertion sort below is an exact
model of `sorted` (and keeps every definition kernel-computable). -/

/-- Insert `x` after every element not strictly greater than it. -/
def insStable (lt : α → α → Bool) (x : α) : List α → List α
  | [] => [x]
  | y :: ys => if lt x y then x :: y :: ys else y :: insStable lt x ys

/-- Python `sorted(xs, key=...)` where `lt` is the strict key comparison. -/
def pySorted (lt : α → α → Bool) (xs : List α) : List α :=
  xs.foldl (fun acc x => insStable lt x acc) []

/-! ### fetch_jira_issues.py: `split_date_range`

Calendar dates are modelled by their day ordinal; `datetime.fromisoformat`
and `strftime("%Y-%m-%d")` are mutually inverse bijections between valid
`YYYY-MM-DD` strings and ordinals, so the arithmetic below is exactly the
`timedelta` arithmetic of the source. -/

/-- The while-loop of `split_date_range`: starting at `cur`, emit chunks
`(cur, min (cur + span) endD)` until `cur` passes `endD`, where
`span = days_per_chunk - 1` (the loop adds `timedelta(days_per_chunk - 1)`). -/
def buildChunks (span : Nat) (cur endD : Nat) : List (Nat × Nat) :=
  if cur ≤ endD then
    (cur, min (cur + span) endD) :: buildChunks span (min (cur + span) endD + 1) endD
  else []
termination_by endD + 1 - cur
decreasing_by omega

/-- Embedding of `split_date_range(start_date, end_date, num_chunks)`
(fetch_jira_issues.py, lines 125-165).  `total_days ≤ 0` can only mean
`total_days = 0` over the truncated natural subtraction, which happens
exactly when `start_date > end_date`, as in the source's integer test. -/
def split_date_range (start_date end_date : Nat) (num_chunks : Nat) :
    List (Nat × Nat) :=
  let total_days := end_date + 1 - start_date
  if total_days = 0 then [(start_date, end_date)]
  else if total_days ≤ 30 then [(start_date, end_date)]
  else
    let days_per_chunk := max 30 (total_days / num_chunks)
    buildChunks (days_per_chunk - 1) start_date end_date

/-! ### fetch_jira_issues.py: the parallel fetch coordinator

Each dispatched partition either returns its list of issues or raises; the
coordinator's `as_completed` loop is modelled by a list of per-partition
outcomes (in completion order, which the claim's multiset statement makes
irrelevant). -/

/-- The result-collection loop of `fetch_all_issues_parallel`: extend with
each successful partition's issues, skip (log only) the failed ones. -/
def collect_chunk_results : List (Except PyErr (List JVal)) → List JVal
  | [] => []
  | .ok xs :: rest => xs ++ collect_chunk_results rest
  | .error _ :: rest => collect_chunk_results rest

/-- Sort key `x.get("fields", {}).get("created", "")` of the final sort.
Issues come from the remote JSON API, hence are dicts; a non-string
`created` would make the source sort raise and is irrelevant to the
permutation-level claim proved about this function. -/
def createdKey (x : JVal) : String :=
  match jGetD (jGetD x "fields" (.obj [])) "created" (.str "") with
  | .str s => s
  | _ => ""

/-- Embedding of the merge phase of `fetch_all_issues_parallel`
(fetch_jira_issues.py, lines 213-236): collect the per-partition outcomes,
then sort by creation timestamp. -/
def fetch_all_issues_parallel (results : List (Except PyErr (List JVal))) :
    List JVal :=
  pySorted (fun a b => pyStrLt (createdKey a) (createdKey b))
    (collect_chunk_results results)

/-! ### The field-inference engine: `is_date_string` and `find_date_fields`

These two functions appear with character-identical logic in app.py
(lines 272-332) and analyze_data_quality.py (lines 73-140); they are
embedded once. -/

/-- Embedding of `is_date_string(value)` (app.py, lines 272-299): strip a
trailing `Z`/`+00:00`, any residual `+...` suffix and, for long strings, any
dash-separated groups beyond the first three; then accept iff
`datetime.fromisoformat` accepts the first 19 (or 10) characters. -/
def is_date_string (v : JVal) : Bool :=
  match v with
  | .str s =>
    if s.data.isEmpty then false
    else
      let c1 := chReplace "Z".data [] s.data
      let c2 := chReplace "+00:00".data [] c1
      let c3 := if c2.contains '+' then (chSplitChar '+' c2).headD [] else c2
      let c4 :=
        if c3.contains '-' && decide (c3.length > 10) then
          let parts := chSplitChar '-' c3
          if parts.length > 3 then chJoinChar '-' (parts.take 3) else c3
        else c3
      if 10 ≤ c4.length then
        (if 19 ≤ c4.length then pyFromIsoOk (c4.take 19)
          else pyFromIsoOk (c4.take 10)) ||
        pyFromIsoOk (c4.take 10)
      else false
  | _ => false

/-- The `date_fields` accumulation loop of `find_date_fields`: every
`customfield_*` entry with a non-null, date-like value, in encounter
(dict-insertion) order. -/
def dateFieldsOf (kvs : List (String × JVal)) : List (String × JVal) :=
  kvs.filter (fun p =>
    chStartsWith "customfield_".data p.1.data &&
    !(match p.2 with | .nul => true | _ => false) &&
    is_date_string p.2)

/-- The numeric suffix of a custom-field key:
`int(key.replace("customfield_", ""))`, `none` modelling `ValueError`. -/
def customfieldSuffix (k : String) : Option Int :=
  pyIntOfStr (chReplace "customfield_".data [] k.data)

/-- Strict comparison of two `date_fields` entries by numeric suffix, the
key of `sorted(date_fields, key=lambda x: int(x[0].replace(...)))`; the
`getD` default is irrelevant because the sort is only taken when every
suffix parses. -/
def suffixLtB (a b : String × JVal) : Bool :=
  decide ((customfieldSuffix a.1).getD 0 < (customfieldSuffix b.1).getD 0)

/-- The body of `find_date_fields` once `fields` is known to be a dict
(after that point the source raises nothing): `duedate` seeds the end slot;
with two or more date-like custom fields both slots are overwritten from
the numeric-suffix sort — falling back to encounter order when some suffix
fails to parse as an int (CPython's `sorted` computes all keys before
comparing, so one bad suffix makes the whole sort raise `ValueError`,
caught by the source) — and with exactly one, the end slot alone is
overwritten. -/
def find_date_fields_pure (fields_kvs : List (String × JVal)) :
    Option JVal × Option JVal :=
  let dueEnd : Option JVal :=
    match alistFind fields_kvs "duedate" with
    | some v => if v.truthy then some v else none
    | none => none
  let date_fields := dateFieldsOf fields_kvs
  if 2 ≤ date_fields.length then
    if date_fields.all (fun p => (customfieldSuffix p.1).isSome) then
      let sorted_fields := pySorted suffixLtB date_fields
      (sorted_fields[0]?.map (·.2), sorted_fields[1]?.map (·.2))
    else
      (date_fields[0]?.map (·.2), date_fields[1]?.map (·.2))
  else if date_fields.length = 1 then
    (none, date_fields[0]?.map (·.2))
  else
    (none, dueEnd)

/-- Embedding of `find_date_fields(issue)` (app.py, lines 302-332).  The
`Except` layer reproduces the exceptions of `issue.get`,
`"duedate" in fields`, `fields["duedate"]` and `fields.items()` on
malformed values; when `fields` is a dict those all succeed and the result
is `find_date_fields_pure` of its bindings. -/
def find_date_fields (issue : JVal) : Except PyErr (Option JVal × Option JVal) := do
  let fields ← pyGetD issue "fields" (.obj [])
  let hasDue ← pyContains fields "duedate"
  let _ ← if hasDue then pySubscript fields "duedate" else pure JVal.nul
  let kvs ← pyItems fields
  pure (find_date_fields_pure kvs)

/-- Field dict of a concrete issue carrying a non-empty `duedate` and two
date-like custom fields (counterexample data for the duedate-priority
claim). -/
def dueOverrideFields : List (String × JVal) :=
  [("duedate", .str "2024-05-05"),
   ("customfield_10021", .str "2024-02-02"),
   ("customfield_10020", .str "2024-01-01")]

/-- The issue built over `dueOverrideFields`. -/
def dueOverrideIssue : JVal := .obj [("fields", .obj dueOverrideFields)]

/-! ### The parent-hierarchy validator (app.py, lines 57-123) -/

/-- Python `v == "s"` for a string literal: true only for an equal string. -/
def pyEqStr (v : JVal) (s : String) : Bool :=
  match v with
  | .str t => t = s
  | _ => false

/-- Embedding of `get_expected_parent_type(issue_type)` (app.py, lines
57-67); `none` models Python's `None`. -/
def get_expected_parent_type (issue_type : String) : Option String :=
  if issue_type = "Epic" then some "Initiative"
  else if ["Story", "Task", "Bug", "Spike", "Documentation"].contains issue_type
    then some "Epic"
  else if issue_type = "Sub-task" then some "Story/Task"
  else none

/-- The parent-type extraction
`parent.get("fields", {}).get("issuetype", {}).get("name", "")`
(app.py, line 77). -/
def parentTypeOf (parent : JVal) : Except PyErr JVal := do
  let f ← pyGetD parent "fields" (.obj [])
  let it ← pyGetD f "issuetype" (.obj [])
  pyGetD it "name" (.str "")

/-- Embedding of `has_correct_parent(issue_type, parent)` (app.py, lines
70-87); an absent parent is `fields.get("parent")`'s `None`, i.e.
`JVal.nul`.  The source also computes `expected =
get_expected_parent_type(issue_type)` at line 78 and never reads it; that
dead binding is dropped here. -/
def has_correct_parent (issue_type : String) (parent : JVal) :
    Except PyErr Bool :=
  if !parent.truthy then pure false
  else do
    let parent_type ← parentTypeOf parent
    if issue_type = "Epic" then
      pure (pyEqStr parent_type "Initiative")
    else if ["Story", "Task", "Bug", "Spike", "Documentation"].contains issue_type
      then pure (pyEqStr parent_type "Epic")
    else if issue_type = "Sub-task" then
      pure (pyEqStr parent_type "Story" || pyEqStr parent_type "Task")
    else
      pure false

/-- The per-issue unlinked test of `count_issues_by_type` (app.py, lines
119-121): a violation is reported iff the type has a required parent
(truthy `expected_parent`) and `has_correct_parent` fails; for types with
no required parent `has_correct_parent` is never called. -/
def parentViolation (issue_type : String) (parent : JVal) :
    Except PyErr Bool :=
  match get_expected_parent_type issue_type with
  | some _ => do
    let ok ← has_correct_parent issue_type parent
    pure !ok
  | none => pure false

/-! ### The quality-analysis layer (app.py, lines 335-393)

`datetime.now()` is a parameter `today`, the day ordinal of the wall-clock
date; the code only ever compares `.date()` values, so a datetime is
represented by the ordinal of its date part. -/

/-- Calling a `str` method (`.strip()`, `.lower()`, `.split()`) on a value:
`AttributeError` unless it is a string. -/
def pyStrMethod (v : JVal) : Except PyErr String :=
  match v with
  | .str s => .ok s
  | _ => .error .attributeError

/-- The value is a string, or it is falsy (so a guard skips it before any
string method is reached). -/
def strOrFalsy (v : JVal) : Bool :=
  match v with
  | .str _ => true
  | v => !v.truthy

/-- Python `s.split("T")[0]`. -/
def splitTHead (s : String) : String :=
  String.mk ((chSplitChar 'T' s.data).headD [])

/-- The date-ordinal result of `datetime.fromisoformat` as `parse_date`
applies it to a string: full-string parse (after `Z` → `+00:00`) when a `T`
is present, else parse of the first 10 characters; `none` models the caught
`ValueError`.  The `.date()` of the parsed value is its literal civil date
part, offset ignored. -/
def parse_date_str (s : String) : Option Int :=
  let target :=
    if s.data.contains 'T' then chReplace "Z".data "+00:00".data s.data
    else s.data.take 10
  match pyFromIso target with
  | some (y, m, d, _, _) => some (daysFromCivil y m d)
  | none => none

/-- Embedding of `parse_date(date_str)` (app.py, lines 335-346): `None` for
a falsy input; `TypeError` (uncaught by the source's
`except (ValueError, AttributeError)`) for a truthy non-string;
otherwise the parse result with failures absorbed to `None`. -/
def parse_date (v : JVal) : Except PyErr (Option Int) :=
  if !v.truthy then pure none
  else
    match v with
    | .str s => pure (parse_date_str s)
    | _ => .error .typeError

/-- One row of `get_issues_with_past_start_date_open`'s result. -/
structure PastStartRow where
  key : JVal
  summary : JVal
  created_date : String
  creator_name : JVal
  start_date : String
  status : String
deriving Repr

/-- The `created_date` computation
`created_raw.split("T")[0] if created_raw else ""`. -/
def createdDateOf (createdV : JVal) : Except PyErr String :=
  if !createdV.truthy then pure ""
  else do
    let s ← pyStrMethod createdV
    pure (splitTHead s)

/-- The `creator_name` computation
`creator.get("displayName", creator.get("emailAddress", "Unknown"))`. -/
def creatorNameOf (creatorV : JVal) : Except PyErr JVal := do
  let inner ← pyGetD creatorV "emailAddress" (.str "Unknown")
  pyGetD creatorV "displayName" inner

/-- The loop body of `get_issues_with_past_start_date_open` (app.py, lines
364-391) for one issue: `some row` when the issue is appended, `none` when
the loop continues without it. -/
def past_start_open_step (today : Int) (issue : JVal) :
    Except PyErr (Option PastStartRow) := do
  let fields ← pyGetD issue "fields" (.obj [])
  let statusObj ← pyGetD fields "status" (.obj [])
  let statusV ← pyGetD statusObj "name" (.str "")
  if !statusV.truthy then pure none
  else do
    let ss ← pyStrMethod statusV
    if String.mk (chLower (chStrip ss.data)) ≠ "open" then pure none
    else do
      let fdf ← find_date_fields issue
      match fdf.1 with
      | none => pure none
      | some sv =>
        if !sv.truthy then pure none
        else do
          let d? ← parse_date sv
          match d? with
          | none => pure none
          | some d =>
            if d < today then do
              let keyV ← pyGetD issue "key" (.str "")
              let summaryV ← pyGetD fields "summary" (.str "")
              let createdV ← pyGetD fields "created" (.str "")
              let created_date ← createdDateOf createdV
              let creatorV ← pyGetD fields "creator" (.obj [])
              let creator_name ← creatorNameOf creatorV
              let start_date ←
                match sv with
                | .str s =>
                  pure (if s.data.contains 'T' then splitTHead s
                    else String.mk (s.data.take 10))
                | _ => .error .typeError
              pure (some ⟨keyV, summaryV, created_date, creator_name,
                start_date, ss⟩)
            else pure none

/-- Embedding of `get_issues_with_past_start_date_open(issues)` (app.py,
lines 359-393). -/
def get_issues_with_past_start_date_open (today : Int) (issues : List JVal) :
    Except PyErr (List PastStartRow) :=
  issues.foldlM (fun acc issue => do
    let r ← past_start_open_step today issue
    pure (match r with | some row => acc ++ [row] | none => acc)) []

/-- The status name read by the quality checks:
`issue.get("fields", {}).get("status", {}).get("name", "")`, total form. -/
def statusNameOf (issue : JVal) : JVal :=
  jGetD (jGetD (jGetD issue "fields" (.obj [])) "status" (.obj [])) "name"
    (.str "")

/-- The `fields` dict bindings of an issue, total form. -/
def fieldsKvsOf (issue : JVal) : List (String × JVal) :=
  match jGetD issue "fields" (.obj []) with
  | .obj fkvs => fkvs
  | _ => []

/-- Dict test on a JSON value. -/
def isObjB (v : JVal) : Bool :=
  match v with
  | .obj _ => true
  | _ => false

/-- Well-formedness of one issue for `past_start_open_step`: the nested
objects the step reads are dicts when present and the status name and
created timestamp are strings unless falsy.  Date-string contents and
custom-field suffixes remain arbitrary. -/
def pastStartWF (issue : JVal) : Bool :=
  isObjB issue &&
  isObjB (jGetD issue "fields" (.obj [])) &&
  isObjB (jGetD (jGetD issue "fields" (.obj [])) "status" (.obj [])) &&
  strOrFalsy (statusNameOf issue) &&
  strOrFalsy (jGetD (jGetD issue "fields" (.obj [])) "created" (.str "")) &&
  isObjB (jGetD (jGetD issue "fields" (.obj [])) "creator" (.obj []))

/-! ### analyze_data_quality.py, section 4.8 (lines 344-369)

The standalone analyzer's "start date in the past, status OPEN" loop: it
skips only the statuses of the closed list, appends the raw issue, and
absorbs parse failures with the same inline `fromisoformat` logic as
`parse_date`. -/

/-- The closed-status list of analyze_data_quality.py, line 352. -/
def closed_statuses : List String :=
  ["done", "closed", "resolved", "cancelled", "rejected", "completed"]

/-- The loop body of analyze_data_quality.py, lines 347-367, for one issue:
`some issue` when the issue is appended to `issues_past_start_open`.  Its
inline date parsing (lines 358-366) is exactly the body of `parse_date`,
which is reused here. -/
def analyze_past_start_open_step (today : Int) (issue : JVal) :
    Except PyErr (Option JVal) := do
  let fields ← pyGetD issue "fields" (.obj [])
  let statusObj ← pyGetD fields "status" (.obj [])
  let statusV ← pyGetD statusObj "name" (.str "")
  let ss ← pyStrMethod statusV
  if closed_statuses.contains (String.mk (chLower ss.data)) then pure none
  else do
    let fdf ← find_date_fields issue
    match fdf.1 with
    | none => pure none
    | some sv =>
      if !sv.truthy then pure none
      else do
        let d? ← parse_date sv
        match d? with
        | none => pure none
        | some d => pure (if d < today then some issue else none)

/-- The `issues_past_start_open` accumulation of analyze_data_quality.py,
lines 345-367. -/
def analyze_past_start_open (today : Int) (issues : List JVal) :
    Except PyErr (List JVal) :=
  issues.foldlM (fun acc issue => do
    let r ← analyze_past_start_open_step today issue
    pure (match r with | some row => acc ++ [row] | none => acc)) []

/-- A concrete well-formed issue with status `Open` and an inferred start
date of 2023-01-01 (witness data for the past-start-open claims). -/
def pastStartWitnessIssue : JVal :=
  .obj [("key", .str "BP-1"), ("fields", .obj
    [("status", .obj [("name", .str "Open")]),
     ("creator", .obj [("displayName", .str "Alice")]),
     ("created", .str "2023-05-05T10:00:00.000+0000"),
     ("customfield_10020", .str "2023-01-01"),
     ("customfield_10021", .str "2023-02-02")])]

/-- Well-formedness for the analyzer's 4.8 loop: nested dicts plus a string
status name (the analyzer calls `.lower()` without a falsiness guard). -/
def analyzeStartWF (issue : JVal) : Bool :=
  isObjB issue &&
  isObjB (jGetD issue "fields" (.obj [])) &&
  isObjB (jGetD (jGetD issue "fields" (.obj [])) "status" (.obj [])) &&
  (match statusNameOf issue with
   | .str _ => true
   | _ => false)

/-! ### In-progress-without-assignee (app.py, lines 570-601) -/

/-- One row of `get_in_progress_issues_without_assignee`'s result. -/
structure InProgressRow where
  key : JVal
  summary : JVal
  created_date : String
  creator_name : JVal
  status : String
deriving Repr

/-- The loop body of `get_in_progress_issues_without_assignee` for one
issue. -/
def in_progress_step (issue : JVal) : Except PyErr (Option InProgressRow) := do
  let fields ← pyGetD issue "fields" (.obj [])
  let statusObj ← pyGetD fields "status" (.obj [])
  let statusV ← pyGetD statusObj "name" (.str "")
  let ss ← pyStrMethod statusV
  if !(["in progress", "inprogress"].contains (String.mk (chLower ss.data)))
    then pure none
  else do
    let assignee ← pyGetD fields "assignee" .nul
    if assignee.truthy then pure none
    else do
      let keyV ← pyGetD issue "key" (.str "")
      let summaryV ← pyGetD fields "summary" (.str "")
      let createdV ← pyGetD fields "created" (.str "")
      let created_date ← createdDateOf createdV
      let creatorV ← pyGetD fields "creator" (.obj [])
      let creator_name ← creatorNameOf creatorV
      pure (some ⟨keyV, summaryV, created_date, creator_name, ss⟩)

/-- Embedding of `get_in_progress_issues_without_assignee(issues)`. -/
def get_in_progress_issues_without_assignee (issues : List JVal) :
    Except PyErr (List InProgressRow) :=
  issues.foldlM (fun acc issue => do
    let r ← in_progress_step issue
    pure (match r with | some row => acc ++ [row] | none => acc)) []

/-! ### Waiting-for-release and its changelog scan (app.py, lines 396-419
and 540-567) -/

/-- Python `str(v)`.  The repr of containers is abbreviated: the sources
only ever apply `str` to identifiers (strings or numbers), and no claim
depends on a container repr. -/
def pyStr (v : JVal) : String :=
  match v with
  | .nul => "None"
  | .bool b => if b then "True" else "False"
  | .num n => toString n
  | .str s => s
  | .arr _ => "<list>"
  | .obj _ => "<dict>"

/-- Python `reversed(v)` iteration (lists, strings and, since 3.8,
dicts). -/
def pyIterateRev (v : JVal) : Except PyErr (List JVal) := do
  let l ← pyIterate v
  pure l.reverse

/-- The `to_str` normalization of `_get_status_since_from_changelog`
(app.py, lines 412-414): `item.get("toString") or item.get("to") or ""`,
with a dict unwrapped through `name`/`value`. -/
def toStrOf (item : JVal) : Except PyErr JVal := do
  let ts0 ← pyGetD item "toString" .nul
  let ts1 ← pyGetD item "to" .nul
  let to0 := pyOr ts0 (pyOr ts1 (.str ""))
  match to0 with
  | .obj okvs => do
    let n ← pyGetD (.obj okvs) "name" .nul
    let v ← pyGetD (.obj okvs) "value" .nul
    pure (pyOr n (pyOr v (.str "")))
  | _ => pure to0

/-- The date string returned at app.py lines 416-418:
`created_raw.split("T")[0] if "T" in created_raw else created_raw[:10]`
when `created_raw` is truthy, `None` otherwise. -/
def createdRawDate (created_raw : JVal) : Except PyErr (Option String) :=
  if !created_raw.truthy then pure none
  else
    match created_raw with
    | .str s =>
      pure (some (if s.data.contains 'T' then splitTHead s
        else String.mk (s.data.take 10)))
    | _ => .error .typeError

/-- The inner `for item in items` loop of
`_get_status_since_from_changelog` (app.py, lines 409-418): `some ret`
models an early `return ret`, `none` falling through to the next
history. -/
def status_since_scan_items (status_lower : String) (created_raw : JVal) :
    List JVal → Except PyErr (Option (Option String))
  | [] => pure none
  | item :: rest => do
    let fieldV ← pyGetD item "field" .nul
    let fs ← pyStrMethod (pyOr fieldV (.str ""))
    if String.mk (chLower fs.data) ≠ "status" then
      status_since_scan_items status_lower created_raw rest
    else do
      let to1 ← toStrOf item
      let tstr ← pyStrMethod (pyOr to1 (.str ""))
      if String.mk (chLower (chStrip tstr.data)) = status_lower then do
        let d ← createdRawDate created_raw
        pure (some d)
      else
        status_since_scan_items status_lower created_raw rest

/-- The outer `for h in reversed(histories)` loop of
`_get_status_since_from_changelog` (the list is already reversed). -/
def status_since_scan_hist (status_lower : String) :
    List JVal → Except PyErr (Option String)
  | [] => pure none
  | h :: rest => do
    let createdV ← pyGetD h "created" .nul
    let created_raw := pyOr createdV (.str "")
    let itemsV ← pyGetD h "items" .nul
    let itemsL ← pyIterate (pyOr itemsV (.arr []))
    let r ← status_since_scan_items status_lower created_raw itemsL
    match r with
    | some ret => pure ret
    | none => status_since_scan_hist status_lower rest

/-- Embedding of `_get_status_since_from_changelog(issue, status_name)`
(app.py, lines 396-419). -/
def get_status_since_from_changelog (issue : JVal) (status_name : String) :
    Except PyErr (Option String) := do
  let clV ← pyGetD issue "changelog" .nul
  let changelog := pyOr clV (.obj [])
  let histV ← pyGetD changelog "histories" .nul
  let histories := pyOr histV (.arr [])
  let status_lower := String.mk (chLower (chStrip status_name.data))
  if status_lower = "" then pure none
  else do
    let histL ← pyIterateRev histories
    status_since_scan_hist status_lower histL

/-- One row of `get_issues_waiting_for_release`'s result (the `id` kept for
the API mapping, as in the source). -/
structure WaitingRow where
  key : JVal
  summary : JVal
  issue_type : String
  status : String
  status_since : Option String
  id : String
deriving Repr

/-- The loop body of `get_issues_waiting_for_release` (app.py, lines
548-566) for one issue. -/
def waiting_step (issue : JVal) : Except PyErr (Option WaitingRow) := do
  let fields ← pyGetD issue "fields" (.obj [])
  let itV ← pyGetD fields "issuetype" .nul
  let itNameV ← pyGetD (pyOr itV (.obj [])) "name" .nul
  let issue_type ← pyStrMethod (pyOr itNameV (.str ""))
  if !(["epic", "initiative", "story"].contains
      (String.mk (chLower (chStrip issue_type.data)))) then pure none
  else do
    let stV ← pyGetD fields "status" .nul
    let stNameV ← pyGetD (pyOr stV (.obj [])) "name" .nul
    let status ← pyStrMethod (pyOr stNameV (.str ""))
    if String.mk (chLower (chStrip status.data)) ≠
        String.mk (chLower "Waiting for release".data) then pure none
    else do
      let keyV ← pyGetD issue "key" (.str "")
      let sumV ← pyGetD fields "summary" (.str "")
      let status_since ← get_status_since_from_changelog issue
        "Waiting for release"
      let idV ← pyGetD issue "id" (.str "")
      pure (some ⟨keyV, pyOr sumV (.str ""), issue_type, status, status_since,
        pyStr idV⟩)

/-- Embedding of `get_issues_waiting_for_release(issues)`. -/
def get_issues_waiting_for_release (issues : List JVal) :
    Except PyErr (List WaitingRow) :=
  issues.foldlM (fun acc issue => do
    let r ← waiting_step issue
    pure (match r with | some row => acc ++ [row] | none => acc)) []

/-! ### get_quality_analysis, its module-level cache, and load_issues
(app.py, lines 22-54 and 604-639)

Percentages are modelled over `ℚ`; the source computes the same rational
values in floating point.  `datetime.now()` is again the `today`
parameter. -/

/-- The result record of `get_quality_analysis`. -/
structure QualityResult where
  total_issues : Nat
  past_start_open_count : Nat
  past_start_open_percentage : ℚ
  in_progress_no_assignee_count : Nat
  in_progress_no_assignee_percentage : ℚ
  waiting_for_release_count : Nat
  waiting_for_release_percentage : ℚ
deriving Repr, DecidableEq

/-- The computation run by `get_quality_analysis` on a cache miss (app.py,
lines 611-636). -/
def compute_quality_analysis (today : Int) (issues : List JVal) :
    Except PyErr QualityResult := do
  let total_issues := issues.length
  let past_start_open ← get_issues_with_past_start_date_open today issues
  let in_progress_no_assignee ← get_in_progress_issues_without_assignee issues
  let waiting_for_release ← get_issues_waiting_for_release issues
  pure {
    total_issues := total_issues,
    past_start_open_count := past_start_open.length,
    past_start_open_percentage :=
      if total_issues > 0 then
        (past_start_open.length : ℚ) / total_issues * 100
      else 0,
    in_progress_no_assignee_count := in_progress_no_assignee.length,
    in_progress_no_assignee_percentage :=
      if total_issues > 0 then
        (in_progress_no_assignee.length : ℚ) / total_issues * 100
      else 0,
    waiting_for_release_count := waiting_for_release.length,
    waiting_for_release_percentage :=
      if total_issues > 0 then
        (waiting_for_release.length : ℚ) / total_issues * 100
      else 0 }

/-- The module-level mutable state of app.py (lines 22-27): the raw-issues
cache with its file-modification stamp, the two per-type result caches
(held abstract here: no claim reads them), and the quality-analysis
cache. -/
structure AppState where
  issues_cache : Option JVal
  file_mtime : Option Int
  unlinked_cache : List (String × JVal)
  all_by_type_cache : List (String × JVal)
  quality_analysis_cache : Option QualityResult

/-- Embedding of `get_quality_analysis(issues)` (app.py, lines 604-639):
any cached result is returned as is, whatever `issues` holds; otherwise
the analysis runs on `issues` and fills the cache. -/
def get_quality_analysis (today : Int) (st : AppState) (issues : List JVal) :
    Except PyErr (QualityResult × AppState) :=
  match st.quality_analysis_cache with
  | some r => .ok (r, st)
  | none => do
    let r ← compute_quality_analysis today issues
    pure (r, { st with quality_analysis_cache := some r })

/-- Embedding of `load_issues()` (app.py, lines 30-54): `file_exists`,
`current_mtime` and `contents` stand for the filesystem reads; a cache
refresh stores the new contents and stamp and clears every derived
cache. -/
def load_issues (st : AppState) (file_exists : Bool) (current_mtime : Int)
    (contents : JVal) : Except PyErr (JVal × AppState) :=
  if !file_exists then .error .abort500
  else
    match st.issues_cache with
    | none =>
      .ok (contents, ⟨some contents, some current_mtime, [], [], none⟩)
    | some c =>
      if st.file_mtime ≠ some current_mtime then
        .ok (contents, ⟨some contents, some current_mtime, [], [], none⟩)
      else
        .ok (c, st)

/-! ### analyze_data_quality.py, section 1 (lines 154-181): the
without-parent count and its unguarded percentage -/

/-- Python division: `ZeroDivisionError` on a zero divisor. -/
def pyDiv (a b : ℚ) : Except PyErr ℚ :=
  if b = 0 then .error .zeroDivisionError else .ok (a / b)

/-- The counting loop of `analyze_data_quality` section 1 (lines 163-172):
issues whose `parent` field is falsy. -/
def without_parent_count (issues : List JVal) : Except PyErr Nat :=
  issues.foldlM (fun (acc : Nat) issue => do
    let fields ← pyGetD issue "fields" (.obj [])
    let itV ← pyGetD fields "issuetype" (.obj [])
    let _ ← pyGetD itV "name" (.str "Unknown")
    let parent ← pyGetD fields "parent" .nul
    pure (if parent.truthy then acc else acc + 1)) 0

/-- The without-parent aggregate of `analyze_data_quality` (lines 159-174):
count the issues with a falsy `parent` and compute the share
`len(issues_without_parent)/total_issues*100` it prints — a division that
is not guarded against an empty collection. -/
def analyze_without_parent_stats (issues : List JVal) :
    Except PyErr (Nat × ℚ) := do
  let total_issues := issues.length
  let cnt ← without_parent_count issues
  let q ← pyDiv (cnt : ℚ) (total_issues : ℚ)
  pure (cnt, q * 100)

/-! ### The changelog resolver (app.py, lines 422-537)

`_fetch_changelog_status_since` talks to two HTTP endpoints; the network is
abstracted by the data it successfully delivers: `bulkPages` is the list of
bulkfetch pages the loop consumed (an HTTP failure, a missing
`nextPageToken` or the 100-iteration cap merely truncate it), and
`perIssueHistories key` is the `all_histories` accumulation of the
per-issue offset-paginated GET for `key` (likewise a prefix of the server's
data).  Timestamps of ISO strings are modelled with naive datetimes
interpreted in UTC (a `TZ=UTC` environment); `int(...)` truncation of a
fractional timestamp is dropped along with the fraction itself. -/

/-- Smallest timestamp `datetime.utcfromtimestamp` accepts
(0001-01-01T00:00:00). -/
def utcTsMin : Int := -62135596800

/-- Largest timestamp `datetime.utcfromtimestamp` accepts
(9999-12-31T23:59:59). -/
def utcTsMax : Int := 253402300799

/-- The numeric branch of `_parse_created_to_date_str`:
`ts = int(created) // 1000 if created > 1e10 else int(created)`, then
`datetime.utcfromtimestamp(ts).strftime("%Y-%m-%d")` with out-of-range
errors caught to `(None, None)`. -/
def parse_created_num (n : Int) : Option Int × Option String :=
  let ts : Int := if n > 10000000000 then Int.fdiv n 1000 else n
  if utcTsMin ≤ ts ∧ ts ≤ utcTsMax then
    let c := civilFromDays (Int.fdiv ts 86400)
    (some ts, some (formatDate c.1 c.2.1 c.2.2))
  else (none, none)

/-- `int(datetime.fromisoformat(s.replace("Z", "+00:00")).timestamp())`
with parse failures mapped to `0`, as in `_parse_created_to_date_str`'s
string branch. -/
def pyTimestampOrZero (s : String) : Int :=
  match pyFromIso (chReplace "Z".data "+00:00".data s.data) with
  | some (y, m, d, sod, off) =>
    daysFromCivil y m d * 86400 + sod - off.getD 0
  | none => 0

/-- Embedding of `_parse_created_to_date_str(created)` (app.py, lines
422-439).  A Python `bool` is an `int` (`isinstance(True, int)`), so the
bool constructor takes the numeric branch; every other non-null value goes
through `str(created)`. -/
def parse_created_to_date_str (created : JVal) : Option Int × Option String :=
  match created with
  | .nul => (none, none)
  | .num n => parse_created_num n
  | .bool b => parse_created_num (if b then 1 else 0)
  | v =>
    let s := pyStr v
    let date_str := if s.data.contains 'T' then splitTHead s
      else String.mk (s.data.take 10)
    (some (pyTimestampOrZero s), some date_str)

/-- The `ts > best_ts` comparison guarded by `best_ts is None` (app.py,
line 458): comparing `None > int` would raise `TypeError`. -/
def tsGreater (ts best_ts : Option Int) : Except PyErr Bool :=
  match best_ts with
  | none => .ok true
  | some b =>
    match ts with
    | some t => .ok (decide (b < t))
    | none => .error .typeError

/-- The `to_val` normalization of `_extract_status_since_from_histories`
(app.py, lines 453-455): `item.get("toString") or item.get("to")`, a dict
unwrapped through `name`/`value`. -/
def toValExtract (item : JVal) : Except PyErr JVal := do
  let ts0 ← pyGetD item "toString" .nul
  let ts1 ← pyGetD item "to" .nul
  let to0 := pyOr ts0 ts1
  match to0 with
  | .obj okvs => do
    let n ← pyGetD (.obj okvs) "name" .nul
    let v ← pyGetD (.obj okvs) "value" .nul
    pure (pyOr n (pyOr v (.str "")))
  | _ => pure to0

/-- The inner `for item in (h.get("items") or [])` loop of
`_extract_status_since_from_histories` (app.py, lines 450-459), folding
the `(best_ts, best_date)` accumulator; `ts` and `ds` are the already
parsed timestamp and date of the history entry. -/
def extract_items_fold (status_lower : String) (ts : Option Int) (ds : String) :
    Option Int × Option String → List JVal →
    Except PyErr (Option Int × Option String)
  | best, [] => pure best
  | best, item :: rest => do
    let fieldV ← pyGetD item "field" .nul
    let fs ← pyStrMethod (pyOr fieldV (.str ""))
    if String.mk (chLower (chStrip fs.data)) ≠ "status" then
      extract_items_fold status_lower ts ds best rest
    else do
      let to1 ← toValExtract item
      if String.mk (chLower (chStrip (pyStr (pyOr to1 (.str ""))).data)) ≠
          status_lower then
        extract_items_fold status_lower ts ds best rest
      else do
        let g ← tsGreater ts best.1
        if g then extract_items_fold status_lower ts ds (ts, some ds) rest
        else extract_items_fold status_lower ts ds best rest

/-- The outer `for h in (histories or [])` loop of
`_extract_status_since_from_histories` (app.py, lines 445-459). -/
def extract_hist_fold (status_lower : String) :
    Option Int × Option String → List JVal →
    Except PyErr (Option Int × Option String)
  | best, [] => pure best
  | best, h :: rest => do
    let createdV ← pyGetD h "created" .nul
    match (parse_created_to_date_str createdV).2 with
    | none => extract_hist_fold status_lower best rest
    | some ds => do
      let itemsV ← pyGetD h "items" .nul
      let itemsL ← pyIterate (pyOr itemsV (.arr []))
      let best2 ← extract_items_fold status_lower
        (parse_created_to_date_str createdV).1 ds best itemsL
      extract_hist_fold status_lower best2 rest

/-- Embedding of
`_extract_status_since_from_histories(histories, status_lower)` (app.py,
lines 442-460). -/
def extract_status_since_from_histories (histories : JVal)
    (status_lower : String) : Except PyErr (Option String) := do
  let hl ← pyIterate (pyOr histories (.arr []))
  let best ← extract_hist_fold status_lower (none, none) hl
  pure best.2

/-- Insert-or-update of `result_map[key] = date_str` on the
insertion-ordered dict model. -/
def setKey (m : List (String × String)) (k v : String) :
    List (String × String) :=
  match m with
  | [] => [(k, v)]
  | (k2, v2) :: rest =>
    if k2 = k then (k, v) :: rest else (k2, v2) :: setKey rest k v

/-- Lookup in the string-valued dict model. -/
def lookupStr (m : List (String × String)) (k : String) : Option String :=
  match m with
  | [] => none
  | (k2, v) :: rest => if k2 = k then some v else lookupStr rest k

/-- Processing of one `issueChangeLogs` entry of a bulkfetch page (app.py,
lines 494-502): map `issueId` through `id_to_key`, extract the best date of
its histories, and keep it when it beats (string-wise) the mapped date so
far. -/
def bulk_log_step (status_lower : String) (id_to_key : List (String × String))
    (m : List (String × String)) (log : JVal) :
    Except PyErr (List (String × String)) := do
  let idV ← pyGetD log "issueId" .nul
  let issue_id := pyStr (pyOr idV (.str ""))
  match lookupStr id_to_key issue_id with
  | none => pure m
  | some key => do
    let ch ← pyGetD log "changeHistories" .nul
    let vv ← pyGetD log "values" .nul
    let histories := pyOr ch (pyOr vv (.arr []))
    let dopt ← extract_status_since_from_histories histories status_lower
    match dopt with
    | none => pure m
    | some ds =>
      pure (if (match lookupStr m key with
          | none => true
          | some old => pyStrLt old ds) then setKey m key ds else m)

/-- Embedding of
`_fetch_changelog_status_since(issue_keys, id_to_key, target_status)`
(app.py, lines 463-537), over the network oracle described above;
`credentials_ok` stands for `JIRA_URL and JIRA_EMAIL and JIRA_TOKEN`. -/
def fetch_changelog_status_since (issue_keys : List String)
    (id_to_key : List (String × String)) (target_status : String)
    (credentials_ok : Bool) (bulkPages : List (List JVal))
    (perIssueHistories : String → List JVal) :
    Except PyErr (List (String × String)) :=
  if issue_keys.isEmpty || !credentials_ok then pure []
  else do
    let status_lower := String.mk (chLower (chStrip target_status.data))
    let m1 ← bulkPages.foldlM (fun m page =>
      page.foldlM (bulk_log_step status_lower id_to_key) m) []
    let missing := issue_keys.filter (fun k => (lookupStr m1 k).isNone)
    missing.foldlM (fun m key => do
      let dopt ← extract_status_since_from_histories
        (.arr (perIssueHistories key)) status_lower
      pure (match dopt with
        | some ds => setKey m key ds
        | none => m)) m1

/-! ### Specification-side mirrors for the changelog resolver

Pure total functions computing, for well-formed inputs, the values the
`Except`-level embedding produces; the theorems below prove the two
agree. -/

/-- Pure mirror of the `to_val` normalization of `toValExtract`. -/
def toValSpec (item : JVal) : JVal :=
  match pyOr (jGetD item "toString" .nul) (jGetD item "to" .nul) with
  | .obj okvs =>
    pyOr (jGetD (.obj okvs) "name" .nul)
      (pyOr (jGetD (.obj okvs) "value" .nul) (.str ""))
  | t0 => t0

/-- Whether one `items` entry is a transition of the status field to the
target value (pure mirror of lines 451-456 for a well-formed item). -/
def itemMatchB (sl : String) (item : JVal) : Bool :=
  match pyOr (jGetD item "field" .nul) (.str "") with
  | .str fs =>
    (String.mk (chLower (chStrip fs.data)) = "status") &&
    (String.mk (chLower (chStrip (pyStr (pyOr (toValSpec item)
      (.str ""))).data)) = sl)
  | _ => false

/-- The `items` list of a history entry (empty when falsy or not a
list). -/
def itemsListOf (h : JVal) : List JVal :=
  match pyOr (jGetD h "items" .nul) (.arr []) with
  | .arr l => l
  | _ => []

/-- The (timestamp, date) pairs contributed by one history entry: one per
matching transition item, all carrying the entry's parsed timestamp and
date. -/
def histTrans (sl : String) (h : JVal) : List (Int × String) :=
  match parse_created_to_date_str (jGetD h "created" .nul) with
  | (some t, some ds) =>
    ((itemsListOf h).filter (itemMatchB sl)).map (fun _ => (t, ds))
  | _ => []

/-- The reduction kept by the extractor: the first pair of maximal
timestamp (later pairs replace the best only on a strictly greater
timestamp). -/
def pickBest : Option (Int × String) → List (Int × String) →
    Option (Int × String)
  | best, [] => best
  | best, (t, d) :: rest =>
    pickBest (match best with
      | none => some (t, d)
      | some (bt, bd) => if bt < t then some (t, d) else some (bt, bd)) rest

/-- The accumulator of the extractor folds, as a pure value. -/
def reprBest : Option (Int × String) → Option Int × Option String
  | none => (none, none)
  | some (t, d) => (some t, some d)

/-- The date the extractor resolves from a list of history entries. -/
def extractSpec (sl : String) (hl : List JVal) : Option String :=
  (pickBest none ((hl.map (histTrans sl)).flatten)).map (·.2)

/-- The issue key a bulk `issueChangeLogs` entry maps to. -/
def logKeyOf (id_to_key : List (String × String)) (log : JVal) :
    Option String :=
  lookupStr id_to_key (pyStr (pyOr (jGetD log "issueId" .nul) (.str "")))

/-- The histories of a bulk entry
(`log.get("changeHistories") or log.get("values") or []`). -/
def logHistsOf (log : JVal) : List JVal :=
  match pyOr (jGetD log "changeHistories" .nul)
      (pyOr (jGetD log "values" .nul) (.arr [])) with
  | .arr l => l
  | _ => []

/-- The dates the bulk phase extracts for one key, page by page in
order. -/
def bulkDatesFor (sl : String) (id_to_key : List (String × String))
    (key : String) (pages : List (List JVal)) : List String :=
  pages.flatten.filterMap (fun log =>
    if logKeyOf id_to_key log = some key then extractSpec sl (logHistsOf log)
    else none)

/-- The bulk phase's keep-the-greater merge over those dates
(string-lexicographic, first maximum kept). -/
def strMaxFold (acc : Option String) : List String → Option String
  | [] => acc
  | d :: rest =>
    strMaxFold (if (match acc with
      | none => true
      | some old => pyStrLt old d) then some d else acc) rest

/-- The value the bulk phase resolves for a key. -/
def bulkBest (sl : String) (id_to_key : List (String × String))
    (key : String) (pages : List (List JVal)) : Option String :=
  strMaxFold none (bulkDatesFor sl id_to_key key pages)

/-- Pure mirror of `bulk_log_step` for a well-formed log entry. -/
def bulkLogUpdate (sl : String) (id_to_key : List (String × String))
    (m : List (String × String)) (log : JVal) : List (String × String) :=
  match logKeyOf id_to_key log with
  | none => m
  | some key =>
    match extractSpec sl (logHistsOf log) with
    | none => m
    | some ds =>
      if (match lookupStr m key with
        | none => true
        | some old => pyStrLt old ds) then setKey m key ds else m

/-- The dates one page contributes for one key. -/
def pageDatesFor (sl : String) (id_to_key : List (String × String))
    (key : String) (page : List JVal) : List String :=
  page.filterMap (fun log =>
    if logKeyOf id_to_key log = some key then extractSpec sl (logHistsOf log)
    else none)

/-- The date one bulk entry contributes for one key. -/
def logDateFor (sl : String) (id_to_key : List (String × String))
    (key : String) (log : JVal) : Option String :=
  if logKeyOf id_to_key log = some key then extractSpec sl (logHistsOf log)
  else none

/-- The value the per-issue fallback resolves for a key. -/
def fallbackBest (sl : String) (perIssueHistories : String → List JVal)
    (key : String) : Option String :=
  extractSpec sl (perIssueHistories key)

/-- Well-formedness of one `items` entry for the extractor: a dict whose
`field` value, when truthy, is a string (nothing else is required — the
`toString`/`to` normalization and `str()` never raise). -/
def itemWF (item : JVal) : Bool :=
  isObjB item && strOrFalsy (jGetD item "field" .nul)

/-- Well-formedness of one history entry: a dict whose `items`, when
truthy, is a list of well-formed entries (`created` may be anything —
`_parse_created_to_date_str` is total). -/
def histWF (h : JVal) : Bool :=
  isObjB h &&
  (match pyOr (jGetD h "items" .nul) (.arr []) with
   | .arr l => l.all itemWF
   | _ => false)

/-- Well-formedness of one bulk `issueChangeLogs` entry: a dict whose
histories value is a list of well-formed history entries. -/
def logWF (log : JVal) : Bool :=
  isObjB log &&
  (match pyOr (jGetD log "changeHistories" .nul)
      (pyOr (jGetD log "values" .nul) (.arr [])) with
   | .arr l => l.all histWF
   | _ => false)

/-- Specification of the chunk list produced for a range of more than 30
days: nonempty, first chunk starts at `s`, last chunk ends at `e`, chunks
are consecutive (each starts the day after the previous one ends), each
chunk is a nonempty interval spanning `dpc` days except possibly a final
truncated one, and every day of `[s, e]` is covered by exactly one chunk. -/
def chunksSpec (s e dpc : Nat) (out : List (Nat × Nat)) : Prop :=
  (∃ b, out.head? = some (s, b)) ∧
  (∃ a, out.getLast? = some (a, e)) ∧
  List.Chain' (fun p q : Nat × Nat => q.1 = p.2 + 1) out ∧
  (∀ p ∈ out, p.1 ≤ p.2 ∧ (p.2 = p.1 + (dpc - 1) ∨ p.2 = e)) ∧
  (∀ d : Nat, (out.countP (fun p => decide (p.1 ≤ d) && decide (d ≤ p.2))) =
    if s ≤ d ∧ d ≤ e then 1 else 0)

/-- Concrete changelog data: a history recording a transition of the
status field to "Waiting for release" on 2024-03-01. -/
def c7hist1 : JVal := .obj
  [("created", .str "2024-03-01T10:00:00+00:00"),
   ("items", .arr [.obj
     [("field", .str "status"),
      ("toString", .str "Waiting for release")]])]

/-- A second concrete history, same transition on 2024-02-01. -/
def c7hist2 : JVal := .obj
  [("created", .str "2024-02-01T09:00:00+00:00"),
   ("items", .arr [.obj
     [("field", .str "status"),
      ("toString", .str "Waiting for release")]])]

/-- A concrete bulkfetch entry: issue id 1001 with `c7hist2`. -/
def c7log1 : JVal := .obj
  [("issueId", .str "1001"), ("changeHistories", .arr [c7hist2])]

/-- A concrete per-issue changelog oracle: only BP-2 has histories. -/
def c7perIssue : String → List JVal :=
  fun k => if k = "BP-2" then [c7hist1] else []

/-! ## Theorems -/

theorem insStable_perm (lt : α → α → Bool) (x : α) (l : List α) :
    (insStable lt x l).Perm (x :: l) := by
  induction l with
  | nil => simp [insStable]
  | cons y ys ih =>
    simp only [insStable]
    by_cases h : lt x y = true
    · simp [h]
    · simp only [h, if_false]
      exact (ih.cons y).trans (List.Perm.swap x y ys)

theorem pySorted_foldl_perm (lt : α → α → Bool) (xs acc : List α) :
    (xs.foldl (fun acc x => insStable lt x acc) acc).Perm (acc ++ xs) := by
  induction xs generalizing acc with
  | nil => simp
  | cons x xs ih =>
    simp only [List.foldl_cons]
    refine (ih (insStable lt x acc)).trans ?_
    have h1 : (insStable lt x acc ++ xs).Perm ((x :: acc) ++ xs) :=
      (insStable_perm lt x acc).append_right xs
    exact h1.trans List.perm_middle.symm

theorem pySorted_perm (lt : α → α → Bool) (xs : List α) :
    (pySorted lt xs).Perm xs := by
  simpa [pySorted] using pySorted_foldl_perm lt xs []

theorem insStable_sorted (f : α → Int) (x : α) (l : List α)
    (hl : l.Pairwise (fun a b => f a ≤ f b)) :
    (insStable (fun a b => decide (f a < f b)) x l).Pairwise
      (fun a b => f a ≤ f b) := by
  induction l with
  | nil => simp [insStable]
  | cons y ys ih =>
    rcases List.pairwise_cons.mp hl with ⟨hy, hys⟩
    simp only [insStable]
    by_cases h : f x < f y
    · simp only [decide_eq_true_eq, h, if_true]
      refine List.pairwise_cons.mpr ⟨?_, hl⟩
      intro b hb
      rcases List.mem_cons.mp hb with hb2 | hb2
      · subst hb2; exact le_of_lt h
      · exact le_trans (le_of_lt h) (hy b hb2)
    · simp only [decide_eq_true_eq, h, if_false]
      refine List.pairwise_cons.mpr ⟨?_, ih hys⟩
      intro b hb
      have hmem := (insStable_perm (fun a b => decide (f a < f b)) x ys).mem_iff.mp hb
      rcases List.mem_cons.mp hmem with hb2 | hb2
      · subst hb2; omega
      · exact hy b hb2

theorem pySorted_sorted (f : α → Int) (xs : List α) :
    (pySorted (fun a b => decide (f a < f b)) xs).Pairwise
      (fun a b => f a ≤ f b) := by
  suffices h : ∀ acc : List α, acc.Pairwise (fun a b => f a ≤ f b) →
      (xs.foldl (fun acc x => insStable (fun a b => decide (f a < f b)) x acc)
        acc).Pairwise (fun a b => f a ≤ f b) by
    exact h [] (by simp)
  induction xs with
  | nil => intro acc hacc; simpa using hacc
  | cons x xs ih =>
    intro acc hacc
    simp only [List.foldl_cons]
    exact ih _ (insStable_sorted f x acc hacc)

/-! ### Properties of `buildChunks` and the claims about fetch_jira_issues.py -/

theorem buildChunks_eq_cons (span cur endD : Nat) (h : cur ≤ endD) :
    buildChunks span cur endD =
      (cur, min (cur + span) endD) ::
        buildChunks span (min (cur + span) endD + 1) endD := by
  rw [buildChunks]
  simp [h]

theorem buildChunks_eq_nil (span cur endD : Nat) (h : ¬ cur ≤ endD) :
    buildChunks span cur endD = [] := by
  rw [buildChunks]
  simp [h]

theorem buildChunks_head (span cur endD : Nat) (h : cur ≤ endD) :
    (buildChunks span cur endD).head? = some (cur, min (cur + span) endD) := by
  rw [buildChunks_eq_cons span cur endD h]
  rfl

theorem buildChunks_mem (span : Nat) :
    ∀ cur endD : Nat, ∀ p ∈ buildChunks span cur endD,
      cur ≤ p.1 ∧ p.1 ≤ p.2 ∧ p.2 = min (p.1 + span) endD := by
  intro cur endD
  induction cur, endD using buildChunks.induct span with
  | case1 cur endD h ih =>
    intro p hp
    rw [buildChunks_eq_cons span cur endD h] at hp
    rcases List.mem_cons.mp hp with hp2 | hp2
    · subst hp2
      refine ⟨le_refl _, ?_, rfl⟩
      omega
    · have := ih p hp2
      omega
  | case2 cur endD h =>
    intro p hp
    rw [buildChunks_eq_nil span cur endD h] at hp
    simp at hp

theorem buildChunks_getLast (span : Nat) :
    ∀ cur endD : Nat, cur ≤ endD →
      ∃ a, (buildChunks span cur endD).getLast? = some (a, endD) := by
  intro cur endD
  induction cur, endD using buildChunks.induct span with
  | case1 cur endD h ih =>
    intro _
    rw [buildChunks_eq_cons span cur endD h]
    by_cases h2 : min (cur + span) endD + 1 ≤ endD
    · rcases ih h2 with ⟨a, ha⟩
      have hne : buildChunks span (min (cur + span) endD + 1) endD ≠ [] := by
        rw [buildChunks_eq_cons span _ endD h2]
        simp
      rcases List.exists_cons_of_ne_nil hne with ⟨q, l, hl⟩
      rw [hl] at ha
      refine ⟨a, ?_⟩
      rw [hl, List.getLast?_cons_cons]
      exact ha
    · have hmin : min (cur + span) endD = endD := by omega
      rw [buildChunks_eq_nil span _ endD h2]
      exact ⟨cur, by simp [hmin]⟩
  | case2 cur endD h =>
    intro h2
    omega

theorem buildChunks_chain (span : Nat) :
    ∀ cur endD : Nat,
      List.Chain' (fun p q : Nat × Nat => q.1 = p.2 + 1)
        (buildChunks span cur endD) := by
  intro cur endD
  induction cur, endD using buildChunks.induct span with
  | case1 cur endD h ih =>
    rw [buildChunks_eq_cons span cur endD h]
    refine List.chain'_cons'.mpr ⟨?_, ih⟩
    intro q hq
    by_cases h2 : min (cur + span) endD + 1 ≤ endD
    · rw [buildChunks_head span _ endD h2, Option.mem_def] at hq
      cases Option.some_inj.mp hq
      rfl
    · rw [buildChunks_eq_nil span _ endD h2] at hq
      simp at hq
  | case2 cur endD h =>
    rw [buildChunks_eq_nil span cur endD h]
    simp

theorem buildChunks_count (span : Nat) :
    ∀ cur endD d : Nat,
      ((buildChunks span cur endD).countP
        (fun p => decide (p.1 ≤ d) && decide (d ≤ p.2))) =
        if cur ≤ d ∧ d ≤ endD then 1 else 0 := by
  intro cur endD
  induction cur, endD using buildChunks.induct span with
  | case1 cur endD h ih =>
    intro d
    rw [buildChunks_eq_cons span cur endD h]
    rw [List.countP_cons, ih d]
    simp only [decide_eq_true_eq, Bool.and_eq_true]
    split_ifs <;> omega
  | case2 cur endD h =>
    intro d
    rw [buildChunks_eq_nil span cur endD h]
    have : ¬ (cur ≤ d ∧ d ≤ endD) := by omega
    simp [this]

/-- Claim C1: for calendar dates `s ≤ e` and a worker count `W ≥ 1`,
`split_date_range` returns the single chunk `(s, e)` when the range spans at
most 30 days, and otherwise a list of consecutive, non-overlapping,
date-inclusive chunks starting at `s`, ending exactly at `e`, covering every
day of `[s, e]` exactly once, each spanning `max 30 (total_days / W)` days
except possibly the truncated last one. -/
theorem C1_split_date_range (s e W : Nat) (hse : s ≤ e) (_hW : 1 ≤ W) :
    (e + 1 - s ≤ 30 → split_date_range s e W = [(s, e)]) ∧
    (30 < e + 1 - s →
      chunksSpec s e (max 30 ((e + 1 - s) / W)) (split_date_range s e W)) := by
  constructor
  · intro h30
    unfold split_date_range
    by_cases h0 : e + 1 - s = 0
    · simp [h0]
    · simp [h0, h30]
  · intro h30
    have h0 : ¬ (e + 1 - s = 0) := by omega
    have h30' : ¬ (e + 1 - s ≤ 30) := by omega
    unfold split_date_range
    simp only [h0, if_false, h30', if_false]
    set dpc := max 30 ((e + 1 - s) / W) with hdpc
    have hd30 : 30 ≤ dpc := le_max_left _ _
    refine ⟨?_, ?_, ?_, ?_, ?_⟩
    · exact ⟨min (s + (dpc - 1)) e, buildChunks_head (dpc - 1) s e hse⟩
    · exact buildChunks_getLast (dpc - 1) s e hse
    · exact buildChunks_chain (dpc - 1) s e
    · intro p hp
      rcases buildChunks_mem (dpc - 1) s e p hp with ⟨h1, h2, h3⟩
      exact ⟨h2, by omega⟩
    · exact buildChunks_count (dpc - 1) s e

/-- Closed witness for C1 at a concrete input: a 41-day range with two
workers, whose hypotheses are discharged by computation. -/
theorem C1_split_date_range_witness :
    (0 ≤ 40 ∧ 1 ≤ 2) ∧
      ((40 + 1 - 0 ≤ 30 → split_date_range 0 40 2 = [(0, 40)]) ∧
        (30 < 40 + 1 - 0 →
          chunksSpec 0 40 (max 30 ((40 + 1 - 0) / 2)) (split_date_range 0 40 2))) :=
  ⟨⟨by decide, by decide⟩, C1_split_date_range 0 40 2 (by decide) (by decide)⟩

theorem collect_chunk_results_eq (results : List (Except PyErr (List JVal))) :
    collect_chunk_results results =
      (results.filterMap Except.toOption).flatten := by
  induction results with
  | nil => rfl
  | cons r rest ih =>
    cases r with
    | ok xs => simp [collect_chunk_results, ih, Except.toOption]
    | error e => simp [collect_chunk_results, ih, Except.toOption]

theorem except_toOption_eq_some {ε α : Type} (r : Except ε α) (l : α) :
    Except.toOption r = some l ↔ r = .ok l := by
  cases r <;> simp [Except.toOption]

/-- Claim C6: if the fetch of a date partition raises, the coordinator
neither propagates nor retries: the merged result is a permutation of
exactly the concatenated issues of the successful partitions, and an issue
appears in it iff some successful partition contained it. -/
theorem C6_fetch_all_issues_parallel (results : List (Except PyErr (List JVal))) :
    (fetch_all_issues_parallel results).Perm
      ((results.filterMap Except.toOption).flatten) ∧
    (∀ x : JVal, x ∈ fetch_all_issues_parallel results ↔
      ∃ l, Except.ok l ∈ results ∧ x ∈ l) := by
  have hperm : (fetch_all_issues_parallel results).Perm
      ((results.filterMap Except.toOption).flatten) := by
    unfold fetch_all_issues_parallel
    rw [collect_chunk_results_eq]
    exact pySorted_perm _ _
  refine ⟨hperm, ?_⟩
  intro x
  rw [hperm.mem_iff]
  constructor
  · intro hx
    rcases List.mem_flatten.mp hx with ⟨l, hl, hxl⟩
    rcases List.mem_filterMap.mp hl with ⟨r, hr, hrl⟩
    exact ⟨l, (except_toOption_eq_some r l).mp hrl ▸ hr, hxl⟩
  · intro ⟨l, hl, hxl⟩
    exact List.mem_flatten.mpr
      ⟨l, List.mem_filterMap.mpr ⟨Except.ok l, hl, rfl⟩, hxl⟩

/-! ### Claims about `find_date_fields` -/

theorem alistFind_any (kvs : List (String × JVal)) (k : String) :
    kvs.any (fun p => p.1 = k) = (alistFind kvs k).isSome := by
  induction kvs with
  | nil => rfl
  | cons p rest ih =>
    by_cases h : p.1 = k
    · simp [alistFind, h]
    · simp [alistFind, h, ih]

theorem find_date_fields_on_dict (ikvs fkvs : List (String × JVal))
    (hf : (alistFind ikvs "fields").getD (.obj []) = .obj fkvs) :
    find_date_fields (.obj ikvs) = .ok (find_date_fields_pure fkvs) := by
  unfold find_date_fields
  rw [show pyGetD (.obj ikvs) "fields" (.obj []) = .ok (.obj fkvs) by
    simp [pyGetD, hf]]
  cases halist : alistFind fkvs "duedate" with
  | none =>
    have hany : fkvs.any (fun p => p.1 = "duedate") = false := by
      rw [alistFind_any, halist]
      rfl
    simp [pyContains, hany, pyItems, Bind.bind, Except.bind, Functor.map,
      Except.map, Pure.pure, Except.pure]
  | some v =>
    have hany : fkvs.any (fun p => p.1 = "duedate") = true := by
      rw [alistFind_any, halist]
      rfl
    simp [pyContains, hany, pySubscript, halist, pyItems, Bind.bind,
      Except.bind, Functor.map, Except.map, Pure.pure, Except.pure]

theorem find_date_fields_pure_nil (fkvs : List (String × JVal))
    (hdf : dateFieldsOf fkvs = []) :
    find_date_fields_pure fkvs =
      (none, match alistFind fkvs "duedate" with
        | some v => if v.truthy then some v else none
        | none => none) := by
  unfold find_date_fields_pure
  rw [hdf]
  rfl

theorem find_date_fields_pure_one (fkvs : List (String × JVal))
    (p : String × JVal) (hdf : dateFieldsOf fkvs = [p]) :
    find_date_fields_pure fkvs = (none, some p.2) := by
  unfold find_date_fields_pure
  rw [hdf]
  rfl

/-- Claim C2 counterexample: `dueOverrideIssue` has the non-empty duedate
`2024-05-05` together with two date-like custom fields, yet the end slot
returned by `find_date_fields` is `2024-02-02`, not the duedate: the custom
fields override `duedate` in the end slot. -/
theorem C2_duedate_overridden_counterexample :
    alistFind dueOverrideFields "duedate" = some (.str "2024-05-05") ∧
    (JVal.str "2024-05-05").truthy = true ∧
    find_date_fields dueOverrideIssue =
      .ok (some (.str "2024-01-01"), some (.str "2024-02-02")) ∧
    (some (JVal.str "2024-02-02") : Option JVal) ≠ some (.str "2024-05-05") := by
  refine ⟨rfl, rfl, rfl, ?_⟩
  intro h
  injection h with h2
  injection h2 with h3
  exact absurd h3 (by decide)

/-- Claim C2 (amended): for an issue whose `fields` dict has a non-empty
`duedate`, `find_date_fields` returns the duedate as end date exactly when
the issue has no date-like custom fields; one or more date-like custom
fields override the end slot with a custom-field value. -/
theorem C2_duedate_end_slot (ikvs fkvs : List (String × JVal)) (dv : JVal)
    (hf : (alistFind ikvs "fields").getD (.obj []) = .obj fkvs)
    (hdue : alistFind fkvs "duedate" = some dv) (hdv : dv.truthy = true) :
    (dateFieldsOf fkvs = [] →
      find_date_fields (.obj ikvs) = .ok (none, some dv)) ∧
    (∀ p, dateFieldsOf fkvs = [p] →
      find_date_fields (.obj ikvs) = .ok (none, some p.2)) ∧
    (2 ≤ (dateFieldsOf fkvs).length →
      ∃ a b, find_date_fields (.obj ikvs) = .ok (some a, some b) ∧
        (∃ q ∈ dateFieldsOf fkvs, b = q.2) ∧
        (∃ q2 ∈ dateFieldsOf fkvs, a = q2.2)) := by
  rw [find_date_fields_on_dict ikvs fkvs hf]
  refine ⟨?_, ?_, ?_⟩
  · intro hdf
    rw [find_date_fields_pure_nil fkvs hdf, hdue]
    simp [hdv]
  · intro p hdf
    rw [find_date_fields_pure_one fkvs p hdf]
  · intro hlen
    unfold find_date_fields_pure
    simp only [hlen, if_true]
    by_cases hall : (dateFieldsOf fkvs).all (fun p => (customfieldSuffix p.1).isSome) = true
    · simp only [hall, if_true]
      have hperm := pySorted_perm suffixLtB (dateFieldsOf fkvs)
      have hlen2 : 2 ≤ (pySorted suffixLtB (dateFieldsOf fkvs)).length := by
        rw [hperm.length_eq]
        exact hlen
      rcases hsf : pySorted suffixLtB (dateFieldsOf fkvs) with _ | ⟨q0, _ | ⟨q1, rest⟩⟩
      · rw [hsf] at hlen2; simp at hlen2
      · rw [hsf] at hlen2; simp at hlen2
      · refine ⟨q0.2, q1.2, by simp [hsf], ?_, ?_⟩
        · exact ⟨q1, hperm.mem_iff.mp (by rw [hsf]; simp), rfl⟩
        · exact ⟨q0, hperm.mem_iff.mp (by rw [hsf]; simp), rfl⟩
    · simp only [hall, if_false]
      rcases hdf : dateFieldsOf fkvs with _ | ⟨q0, _ | ⟨q1, rest⟩⟩
      · rw [hdf] at hlen; simp at hlen
      · rw [hdf] at hlen; simp at hlen
      · refine ⟨q0.2, q1.2, by simp, ?_, ?_⟩
        · exact ⟨q1, by simp, rfl⟩
        · exact ⟨q0, by simp, rfl⟩

/-- Closed witness for the amended C2 at a concrete issue with a duedate
and no custom fields. -/
theorem C2_duedate_end_slot_witness :
    (alistFind [("fields", JVal.obj [("duedate", JVal.str "2024-05-05")])]
      "fields").getD (.obj []) = .obj [("duedate", JVal.str "2024-05-05")] ∧
    alistFind [("duedate", JVal.str "2024-05-05")] "duedate" =
      some (.str "2024-05-05") ∧
    (JVal.str "2024-05-05").truthy = true ∧
    ((dateFieldsOf [("duedate", JVal.str "2024-05-05")] = [] →
      find_date_fields (.obj [("fields", JVal.obj [("duedate", JVal.str "2024-05-05")])]) =
        .ok (none, some (.str "2024-05-05"))) ∧
    (∀ p, dateFieldsOf [("duedate", JVal.str "2024-05-05")] = [p] →
      find_date_fields (.obj [("fields", JVal.obj [("duedate", JVal.str "2024-05-05")])]) =
        .ok (none, some p.2)) ∧
    (2 ≤ (dateFieldsOf [("duedate", JVal.str "2024-05-05")]).length →
      ∃ a b, find_date_fields
          (.obj [("fields", JVal.obj [("duedate", JVal.str "2024-05-05")])]) =
          .ok (some a, some b) ∧
        (∃ q ∈ dateFieldsOf [("duedate", JVal.str "2024-05-05")], b = q.2) ∧
        (∃ q2 ∈ dateFieldsOf [("duedate", JVal.str "2024-05-05")], a = q2.2))) :=
  ⟨rfl, rfl, rfl, C2_duedate_end_slot _ _ _ rfl rfl rfl⟩

/-- Claim C3: for an issue with a `fields` dict carrying no non-empty
`duedate`, `find_date_fields` returns `(none, none)` with zero date-like
custom fields, `(none, v)` with exactly one, and, with two or more, the two
fields of smallest numeric suffix (in suffix order) when every suffix
parses as an int, or the first two fields in encounter order otherwise. -/
theorem C3_find_date_fields_inference (ikvs fkvs : List (String × JVal))
    (hf : (alistFind ikvs "fields").getD (.obj []) = .obj fkvs)
    (hdue : ∀ v, alistFind fkvs "duedate" = some v → v.truthy = false) :
    (dateFieldsOf fkvs = [] → find_date_fields (.obj ikvs) = .ok (none, none)) ∧
    (∀ p, dateFieldsOf fkvs = [p] →
      find_date_fields (.obj ikvs) = .ok (none, some p.2)) ∧
    (2 ≤ (dateFieldsOf fkvs).length →
      ((dateFieldsOf fkvs).all (fun p => (customfieldSuffix p.1).isSome) = true →
        ∃ p q l, (dateFieldsOf fkvs).Perm (p :: q :: l) ∧
          find_date_fields (.obj ikvs) = .ok (some p.2, some q.2) ∧
          (customfieldSuffix p.1).getD 0 ≤ (customfieldSuffix q.1).getD 0 ∧
          (∀ r ∈ l,
            (customfieldSuffix q.1).getD 0 ≤ (customfieldSuffix r.1).getD 0)) ∧
      (¬ ((dateFieldsOf fkvs).all (fun p => (customfieldSuffix p.1).isSome) = true) →
        ∃ p q l, dateFieldsOf fkvs = p :: q :: l ∧
          find_date_fields (.obj ikvs) = .ok (some p.2, some q.2))) := by
  rw [find_date_fields_on_dict ikvs fkvs hf]
  refine ⟨?_, ?_, ?_⟩
  · intro hdf
    rw [find_date_fields_pure_nil fkvs hdf]
    cases halist : alistFind fkvs "duedate" with
    | none => rfl
    | some v => simp [hdue v halist]
  · intro p hdf
    rw [find_date_fields_pure_one fkvs p hdf]
  · intro hlen
    constructor
    · intro hall
      have hperm := pySorted_perm suffixLtB (dateFieldsOf fkvs)
      have hsorted : (pySorted suffixLtB (dateFieldsOf fkvs)).Pairwise
          (fun a b =>
            (customfieldSuffix a.1).getD 0 ≤ (customfieldSuffix b.1).getD 0) :=
        pySorted_sorted (fun p : String × JVal => (customfieldSuffix p.1).getD 0) _
      have hlen2 : 2 ≤ (pySorted suffixLtB (dateFieldsOf fkvs)).length := by
        rw [hperm.length_eq]
        exact hlen
      rcases hsf : pySorted suffixLtB (dateFieldsOf fkvs)
        with _ | ⟨q0, _ | ⟨q1, rest⟩⟩
      · rw [hsf] at hlen2; simp at hlen2
      · rw [hsf] at hlen2; simp at hlen2
      · rw [hsf] at hsorted hperm
        rcases List.pairwise_cons.mp hsorted with ⟨h01, hrest⟩
        rcases List.pairwise_cons.mp hrest with ⟨h1r, _⟩
        refine ⟨q0, q1, rest, hperm.symm, ?_, h01 q1 (by simp), h1r⟩
        unfold find_date_fields_pure
        simp only [hlen, if_true, hall]
        simp [hsf]
    · intro hall
      rcases hdf : dateFieldsOf fkvs with _ | ⟨q0, _ | ⟨q1, rest⟩⟩
      · rw [hdf] at hlen; simp at hlen
      · rw [hdf] at hlen; simp at hlen
      · refine ⟨q0, q1, rest, rfl, ?_⟩
        unfold find_date_fields_pure
        rw [hdf] at hall ⊢
        simp only [hall, if_false]
        simp

/-- Closed witness for C3 at a concrete issue with two numeric-suffix
custom date fields and no duedate. -/
theorem C3_find_date_fields_inference_witness :
    (alistFind [("fields", JVal.obj
        [("customfield_10021", JVal.str "2024-02-02"),
         ("customfield_10020", JVal.str "2024-01-01")])] "fields").getD
      (.obj []) = .obj
        [("customfield_10021", JVal.str "2024-02-02"),
         ("customfield_10020", JVal.str "2024-01-01")] ∧
    (∀ v, alistFind
        [("customfield_10021", JVal.str "2024-02-02"),
         ("customfield_10020", JVal.str "2024-01-01")] "duedate" = some v →
        v.truthy = false) ∧
    ((dateFieldsOf
        [("customfield_10021", JVal.str "2024-02-02"),
         ("customfield_10020", JVal.str "2024-01-01")] = [] →
      find_date_fields (.obj [("fields", JVal.obj
        [("customfield_10021", JVal.str "2024-02-02"),
         ("customfield_10020", JVal.str "2024-01-01")])]) = .ok (none, none)) ∧
    (∀ p, dateFieldsOf
        [("customfield_10021", JVal.str "2024-02-02"),
         ("customfield_10020", JVal.str "2024-01-01")] = [p] →
      find_date_fields (.obj [("fields", JVal.obj
        [("customfield_10021", JVal.str "2024-02-02"),
         ("customfield_10020", JVal.str "2024-01-01")])]) = .ok (none, some p.2)) ∧
    (2 ≤ (dateFieldsOf
        [("customfield_10021", JVal.str "2024-02-02"),
         ("customfield_10020", JVal.str "2024-01-01")]).length →
      ((dateFieldsOf
          [("customfield_10021", JVal.str "2024-02-02"),
           ("customfield_10020", JVal.str "2024-01-01")]).all
          (fun p => (customfieldSuffix p.1).isSome) = true →
        ∃ p q l, (dateFieldsOf
            [("customfield_10021", JVal.str "2024-02-02"),
             ("customfield_10020", JVal.str "2024-01-01")]).Perm (p :: q :: l) ∧
          find_date_fields (.obj [("fields", JVal.obj
            [("customfield_10021", JVal.str "2024-02-02"),
             ("customfield_10020", JVal.str "2024-01-01")])]) =
            .ok (some p.2, some q.2) ∧
          (customfieldSuffix p.1).getD 0 ≤ (customfieldSuffix q.1).getD 0 ∧
          (∀ r ∈ l,
            (customfieldSuffix q.1).getD 0 ≤ (customfieldSuffix r.1).getD 0)) ∧
      (¬ ((dateFieldsOf
          [("customfield_10021", JVal.str "2024-02-02"),
           ("customfield_10020", JVal.str "2024-01-01")]).all
          (fun p => (customfieldSuffix p.1).isSome) = true) →
        ∃ p q l, dateFieldsOf
            [("customfield_10021", JVal.str "2024-02-02"),
             ("customfield_10020", JVal.str "2024-01-01")] = p :: q :: l ∧
          find_date_fields (.obj [("fields", JVal.obj
            [("customfield_10021", JVal.str "2024-02-02"),
             ("customfield_10020", JVal.str "2024-01-01")])]) =
            .ok (some p.2, some q.2)))) :=
  ⟨rfl, fun _ h => Option.noConfusion h,
    C3_find_date_fields_inference _ _ rfl (fun _ h => Option.noConfusion h)⟩

/-! ### Supporting facts for the quality-analysis claims -/

theorem exbind_ok {α β : Type} (a : α) (f : α → Except PyErr β) :
    (Except.ok a >>= f) = f a := rfl

theorem exbind_err {α β : Type} (e : PyErr) (f : α → Except PyErr β) :
    ((Except.error e : Except PyErr α) >>= f) = .error e := rfl

theorem expure_bind {α β : Type} (a : α) (f : α → Except PyErr β) :
    ((pure a : Except PyErr α) >>= f) = f a := rfl

theorem isObjB_obj (v : JVal) (h : isObjB v = true) :
    ∃ kvs, v = .obj kvs := by
  cases v with
  | obj kvs => exact ⟨kvs, rfl⟩
  | nul => simp [isObjB] at h
  | bool b => simp [isObjB] at h
  | num n => simp [isObjB] at h
  | str s => simp [isObjB] at h
  | arr xs => simp [isObjB] at h

theorem dateFieldsOf_val_str (kvs : List (String × JVal)) :
    ∀ q ∈ dateFieldsOf kvs, ∃ s : String, q.2 = .str s ∧ s ≠ "" := by
  intro q hq
  rcases List.mem_filter.mp hq with ⟨_, hcond⟩
  simp only [Bool.and_eq_true] at hcond
  have hds : is_date_string q.2 = true := hcond.2
  cases hval : q.2 with
  | str s =>
    refine ⟨s, rfl, ?_⟩
    intro hcontra
    rw [hval, hcontra] at hds
    exact absurd hds (by decide)
  | nul => rw [hval] at hds; exact absurd hds (by decide)
  | bool b => rw [hval] at hds; simp [is_date_string] at hds
  | num n => rw [hval] at hds; simp [is_date_string] at hds
  | arr xs => rw [hval] at hds; simp [is_date_string] at hds
  | obj pkvs => rw [hval] at hds; simp [is_date_string] at hds

theorem find_start_mem (fkvs : List (String × JVal)) (sv : JVal)
    (h : (find_date_fields_pure fkvs).1 = some sv) :
    ∃ q ∈ dateFieldsOf fkvs, sv = q.2 := by
  unfold find_date_fields_pure at h
  by_cases hlen : 2 ≤ (dateFieldsOf fkvs).length
  · simp only [hlen, if_true] at h
    by_cases hall : (dateFieldsOf fkvs).all
        (fun p => (customfieldSuffix p.1).isSome) = true
    · simp only [hall, if_true] at h
      rcases hopt : (pySorted suffixLtB (dateFieldsOf fkvs))[0]? with _ | q0
      · rw [hopt] at h; simp at h
      · rw [hopt] at h
        have h2 : q0.2 = sv := by simpa using h
        have hq0 : q0 ∈ pySorted suffixLtB (dateFieldsOf fkvs) :=
          List.getElem?_mem hopt
        exact ⟨q0, (pySorted_perm _ _).mem_iff.mp hq0, h2.symm⟩
    · simp only [hall, if_false] at h
      rcases hopt : (dateFieldsOf fkvs)[0]? with _ | q0
      · rw [hopt] at h; simp at h
      · rw [hopt] at h
        have h2 : q0.2 = sv := by simpa using h
        exact ⟨q0, List.getElem?_mem hopt, h2.symm⟩
  · simp only [hlen, if_false] at h
    by_cases h1 : (dateFieldsOf fkvs).length = 1
    · simp only [h1, if_true] at h
      simp at h
    · simp only [h1, if_false] at h
      simp at h

theorem parse_date_on_str (s : String) (hs : s ≠ "") :
    parse_date (.str s) = .ok (parse_date_str s) := by
  simp [parse_date, JVal.truthy, hs, Pure.pure, Except.pure]

theorem createdDateOf_ok (v : JVal) (hv : strOrFalsy v = true) :
    ∃ cd, createdDateOf v = .ok cd := by
  cases v with
  | str s =>
    by_cases hs : s = ""
    · subst hs; exact ⟨"", rfl⟩
    · refine ⟨splitTHead s, ?_⟩
      simp [createdDateOf, JVal.truthy, hs, pyStrMethod, Bind.bind,
        Except.bind, Pure.pure, Except.pure]
  | nul => exact ⟨"", rfl⟩
  | bool b =>
    simp [strOrFalsy, JVal.truthy] at hv
    subst hv
    exact ⟨"", rfl⟩
  | num n =>
    simp [strOrFalsy, JVal.truthy] at hv
    refine ⟨"", ?_⟩
    simp [createdDateOf, JVal.truthy, hv, Pure.pure, Except.pure]
  | arr xs =>
    simp [strOrFalsy, JVal.truthy] at hv
    subst hv
    exact ⟨"", rfl⟩
  | obj kvs =>
    simp [strOrFalsy, JVal.truthy] at hv
    subst hv
    exact ⟨"", rfl⟩

theorem creatorNameOf_ok (ckvs : List (String × JVal)) :
    ∃ v, creatorNameOf (.obj ckvs) = .ok v :=
  ⟨_, rfl⟩

/-! ### Claims about the past-start-but-still-open sets -/

/-- Claim C5 counterexample: the standalone analyzer's
`issues_past_start_open` loop (analyze_data_quality.py, 4.8) admits an
issue whose status is `In Progress` — a status that is not exactly `open`
after case-insensitive trimming — so membership in that cited code is not
equivalent to the exact-`open` condition. -/
theorem C5_analyze_includes_nonopen_counterexample :
    analyze_past_start_open (daysFromCivil 2024 1 1)
      [JVal.obj [("fields", JVal.obj
        [("status", JVal.obj [("name", JVal.str "In Progress")]),
         ("customfield_10020", JVal.str "2000-01-01"),
         ("customfield_10021", JVal.str "2000-02-02")])]] =
      .ok [JVal.obj [("fields", JVal.obj
        [("status", JVal.obj [("name", JVal.str "In Progress")]),
         ("customfield_10020", JVal.str "2000-01-01"),
         ("customfield_10021", JVal.str "2000-02-02")])]] ∧
    String.mk (chLower (chStrip "In Progress".data)) ≠ "open" :=
  ⟨rfl, by decide⟩

/-- Claim C5 (amended): app.py's `get_issues_with_past_start_date_open`
admits an issue iff its status name, case-insensitively trimmed, equals
exactly `open` and its inferred start date parses to a calendar date
strictly before today; the standalone analyzer's corresponding 4.8 loop
instead admits an issue iff its lower-cased status is merely not in the
closed-status list. -/
theorem C5_past_start_open_sets (today : Int) (issue : JVal)
    (hwf : pastStartWF issue = true) (hwf2 : analyzeStartWF issue = true) :
    ((∃ row, past_start_open_step today issue = .ok (some row)) ↔
      (∃ ss : String, statusNameOf issue = .str ss ∧
        String.mk (chLower (chStrip ss.data)) = "open" ∧
        ∃ s d, (find_date_fields_pure (fieldsKvsOf issue)).1 = some (.str s) ∧
          parse_date_str s = some d ∧ d < today)) ∧
    ((∃ j, analyze_past_start_open_step today issue = .ok (some j)) ↔
      (∃ ss : String, statusNameOf issue = .str ss ∧
        closed_statuses.contains (String.mk (chLower ss.data)) = false ∧
        ∃ s d, (find_date_fields_pure (fieldsKvsOf issue)).1 = some (.str s) ∧
          parse_date_str s = some d ∧ d < today)) := by
  cases issue with
  | nul => simp [pastStartWF, isObjB] at hwf
  | bool b => simp [pastStartWF, isObjB] at hwf
  | num n => simp [pastStartWF, isObjB] at hwf
  | str s => simp [pastStartWF, isObjB] at hwf
  | arr xs => simp [pastStartWF, isObjB] at hwf
  | obj ikvs =>
  simp only [pastStartWF, Bool.and_eq_true] at hwf
  obtain ⟨⟨⟨⟨⟨_, hfObj⟩, hsObj⟩, hsName⟩, hcreated⟩, hcrObj⟩ := hwf
  rcases isObjB_obj _ hfObj with ⟨fkvs, hfld⟩
  rw [hfld] at hsObj hcreated hcrObj
  rcases isObjB_obj _ hsObj with ⟨skvs, hst⟩
  simp only [analyzeStartWF, Bool.and_eq_true, statusNameOf] at hwf2
  obtain ⟨⟨⟨_, _⟩, _⟩, hnm⟩ := hwf2
  rw [hfld, hst] at hnm
  cases hname : jGetD (.obj skvs) "name" (.str "") with
  | str ss => ?_
  | nul => rw [hname] at hnm; exact absurd hnm (by simp)
  | bool b => rw [hname] at hnm; exact absurd hnm (by simp)
  | num n => rw [hname] at hnm; exact absurd hnm (by simp)
  | arr xs => rw [hname] at hnm; exact absurd hnm (by simp)
  | obj okvs => rw [hname] at hnm; exact absurd hnm (by simp)
  rcases isObjB_obj _ hcrObj with ⟨ckvs, hck⟩
  have hA : pyGetD (.obj ikvs) "fields" (.obj []) = .ok (.obj fkvs) := by
    rw [← hfld]; rfl
  have hB : pyGetD (.obj fkvs) "status" (.obj []) = .ok (.obj skvs) := by
    rw [← hst]; rfl
  have hC : pyGetD (.obj skvs) "name" (.str "") = .ok (.str ss) := by
    rw [← hname]; rfl
  have hD : find_date_fields (.obj ikvs) = .ok (find_date_fields_pure fkvs) :=
    find_date_fields_on_dict ikvs fkvs hfld
  have hSN : statusNameOf (.obj ikvs) = .str ss := by
    simp only [statusNameOf]
    rw [hfld, hst, hname]
  have hFK : fieldsKvsOf (.obj ikvs) = fkvs := by
    simp only [fieldsKvsOf]
    rw [hfld]
  have hcreator : ∃ ckvs2,
      (alistFind fkvs "creator").getD (.obj []) = .obj ckvs2 := ⟨ckvs, hck⟩
  simp only [hSN, hFK]
  have hssinj : ∀ P : String → Prop, (∃ ss2, (JVal.str ss : JVal) = .str ss2 ∧ P ss2) ↔ P ss := by
    intro P
    constructor
    · rintro ⟨ss2, hss2, hp⟩
      injection hss2 with h2
      exact h2 ▸ hp
    · intro hp
      exact ⟨ss, rfl, hp⟩
  constructor
  · -- app.py characterization
    unfold past_start_open_step
    rw [hA, exbind_ok, hB, exbind_ok, hC, exbind_ok]
    by_cases hse : ss = ""
    · subst hse
      simp only [JVal.truthy, bne_self_eq_false, Bool.not_false, if_true]
      rw [hssinj]
      constructor
      · rintro ⟨row, hrow⟩
        exact absurd hrow (by simp [Pure.pure, Except.pure])
      · rintro ⟨hopen, _⟩
        exact absurd hopen (by decide)
    · have htr : (JVal.str ss).truthy = true := by
        simp [JVal.truthy, hse]
      rw [htr]
      simp only [Bool.not_true, Bool.false_eq_true, if_false, pyStrMethod,
        exbind_ok]
      by_cases hopen : String.mk (chLower (chStrip ss.data)) = "open"
      · simp only [hopen, ne_eq, not_true_eq_false, if_false]
        rw [hD, exbind_ok]
        rw [hssinj]
        simp only [hopen, true_and]
        cases hstart : (find_date_fields_pure fkvs).1 with
        | none =>
          constructor
          · rintro ⟨row, hrow⟩
            exact absurd hrow (by simp [Pure.pure, Except.pure])
          · rintro ⟨s, d, hsd, _⟩
            exact Option.noConfusion hsd
        | some sv =>
          rcases find_start_mem fkvs sv hstart with ⟨q, hqmem, hqv⟩
          rcases dateFieldsOf_val_str fkvs q hqmem with ⟨s, hqs, hsne⟩
          rw [hqv, hqs] at hstart ⊢
          have htr2 : (JVal.str s).truthy = true := by
            simp [JVal.truthy, hsne]
          simp only [htr2, Bool.not_true, Bool.false_eq_true, if_false,
            parse_date_on_str s hsne, exbind_ok]
          cases hpd : parse_date_str s with
          | none =>
            constructor
            · rintro ⟨row, hrow⟩
              exact absurd hrow (by simp [Pure.pure, Except.pure])
            · rintro ⟨s2, d, hsd, hpd2, _⟩
              injection hsd with hsd2
              injection hsd2 with hsd3
              rw [← hsd3] at hpd2
              rw [hpd] at hpd2
              exact Option.noConfusion hpd2
          | some d =>
            by_cases hd : d < today
            · simp only [hd, if_true]
              have hkey : pyGetD (.obj ikvs) "key" (.str "") =
                  .ok ((alistFind ikvs "key").getD (.str "")) := by
                simp [pyGetD]
              have hsum : pyGetD (.obj fkvs) "summary" (.str "") =
                  .ok ((alistFind fkvs "summary").getD (.str "")) := by
                simp [pyGetD]
              have hcrt : pyGetD (.obj fkvs) "created" (.str "") =
                  .ok ((alistFind fkvs "created").getD (.str "")) := by
                simp [pyGetD]
              rcases createdDateOf_ok
                  ((alistFind fkvs "created").getD (.str "")) hcreated with
                ⟨cd, hcd⟩
              have hcrv : pyGetD (.obj fkvs) "creator" (.obj []) =
                  .ok (.obj ckvs) := by
                rw [← hck]; rfl
              rcases creatorNameOf_ok ckvs with ⟨cn, hcn⟩
              simp only [hkey, hsum, hcrt, hcd, hcrv, hcn, exbind_ok,
                expure_bind]
              exact iff_of_true ⟨_, rfl⟩ ⟨s, d, rfl, hpd, hd⟩
            · simp only [hd, if_false]
              constructor
              · rintro ⟨row, hrow⟩
                exact absurd hrow (by simp [Pure.pure, Except.pure])
              · rintro ⟨s2, d2, hsd, hpd2, hd2⟩
                injection hsd with hsd2
                injection hsd2 with hsd3
                rw [← hsd3, hpd] at hpd2
                injection hpd2 with hpd3
                exact absurd hd2 (hpd3 ▸ hd)
      · simp only [ne_eq, hopen, not_false_eq_true, if_true]
        rw [hssinj]
        constructor
        · rintro ⟨row, hrow⟩
          exact absurd hrow (by simp [Pure.pure, Except.pure])
        · rintro ⟨hopen2, _⟩
          exact absurd hopen2 hopen
  · -- analyzer characterization
    unfold analyze_past_start_open_step
    rw [hA, exbind_ok, hB, exbind_ok, hC, exbind_ok]
    simp only [pyStrMethod, exbind_ok]
    rw [hssinj]
    by_cases hcl : closed_statuses.contains (String.mk (chLower ss.data)) = true
    · simp only [hcl, if_true]
      constructor
      · rintro ⟨j, hj⟩
        exact absurd hj (by simp [Pure.pure, Except.pure])
      · rintro ⟨hcl2, _⟩
        exact Bool.noConfusion hcl2
    · have hcl2 : closed_statuses.contains (String.mk (chLower ss.data)) = false := by
        cases hb : closed_statuses.contains (String.mk (chLower ss.data))
        · rfl
        · exact absurd hb hcl
      simp only [hcl2, Bool.false_eq_true, if_false]
      rw [hD, exbind_ok]
      simp only [hcl2, true_and]
      cases hstart : (find_date_fields_pure fkvs).1 with
      | none =>
        constructor
        · rintro ⟨j, hj⟩
          exact absurd hj (by simp [Pure.pure, Except.pure])
        · rintro ⟨s, d, hsd, _⟩
          exact Option.noConfusion hsd
      | some sv =>
        rcases find_start_mem fkvs sv hstart with ⟨q, hqmem, hqv⟩
        rcases dateFieldsOf_val_str fkvs q hqmem with ⟨s, hqs, hsne⟩
        rw [hqv, hqs] at hstart ⊢
        have htr2 : (JVal.str s).truthy = true := by
          simp [JVal.truthy, hsne]
        simp only [htr2, Bool.not_true, Bool.false_eq_true, if_false,
          parse_date_on_str s hsne, exbind_ok]
        cases hpd : parse_date_str s with
        | none =>
          constructor
          · rintro ⟨j, hj⟩
            exact absurd hj (by simp [Pure.pure, Except.pure])
          · rintro ⟨s2, d, hsd, hpd2, _⟩
            injection hsd with hsd2
            injection hsd2 with hsd3
            rw [← hsd3, hpd] at hpd2
            exact Option.noConfusion hpd2
        | some d =>
          by_cases hd : d < today
          · simp only [hd, if_true]
            exact iff_of_true ⟨_, rfl⟩ ⟨s, d, rfl, hpd, hd⟩
          · simp only [hd, if_false]
            constructor
            · rintro ⟨j, hj⟩
              exact absurd hj (by simp [Pure.pure, Except.pure])
            · rintro ⟨s2, d2, hsd, hpd2, hd2⟩
              injection hsd with hsd2
              injection hsd2 with hsd3
              rw [← hsd3, hpd] at hpd2
              injection hpd2 with hpd3
              exact absurd hd2 (hpd3 ▸ hd)

/-- Closed witness for the amended C5 at a concrete well-formed issue. -/
theorem C5_past_start_open_sets_witness :
    pastStartWF pastStartWitnessIssue = true ∧
    analyzeStartWF pastStartWitnessIssue = true ∧
    (((∃ row, past_start_open_step (daysFromCivil 2024 1 1)
        pastStartWitnessIssue = .ok (some row)) ↔
      (∃ ss : String, statusNameOf pastStartWitnessIssue = .str ss ∧
        String.mk (chLower (chStrip ss.data)) = "open" ∧
        ∃ s d, (find_date_fields_pure
            (fieldsKvsOf pastStartWitnessIssue)).1 = some (.str s) ∧
          parse_date_str s = some d ∧ d < daysFromCivil 2024 1 1)) ∧
    ((∃ j, analyze_past_start_open_step (daysFromCivil 2024 1 1)
        pastStartWitnessIssue = .ok (some j)) ↔
      (∃ ss : String, statusNameOf pastStartWitnessIssue = .str ss ∧
        closed_statuses.contains (String.mk (chLower ss.data)) = false ∧
        ∃ s d, (find_date_fields_pure
            (fieldsKvsOf pastStartWitnessIssue)).1 = some (.str s) ∧
          parse_date_str s = some d ∧ d < daysFromCivil 2024 1 1))) :=
  ⟨rfl, rfl,
    C5_past_start_open_sets (daysFromCivil 2024 1 1) pastStartWitnessIssue
      rfl rfl⟩

theorem past_start_open_step_ok (today : Int) (issue : JVal)
    (hwf : pastStartWF issue = true) :
    ∃ r, past_start_open_step today issue = .ok r := by
  cases issue with
  | nul => simp [pastStartWF, isObjB] at hwf
  | bool b => simp [pastStartWF, isObjB] at hwf
  | num n => simp [pastStartWF, isObjB] at hwf
  | str s => simp [pastStartWF, isObjB] at hwf
  | arr xs => simp [pastStartWF, isObjB] at hwf
  | obj ikvs =>
  simp only [pastStartWF, Bool.and_eq_true] at hwf
  obtain ⟨⟨⟨⟨⟨_, hfObj⟩, hsObj⟩, hsName⟩, hcreated⟩, hcrObj⟩ := hwf
  rcases isObjB_obj _ hfObj with ⟨fkvs, hfld⟩
  rw [hfld] at hsObj hcreated hcrObj
  rcases isObjB_obj _ hsObj with ⟨skvs, hst⟩
  rcases isObjB_obj _ hcrObj with ⟨ckvs, hck⟩
  simp only [statusNameOf] at hsName
  rw [hfld, hst] at hsName
  have hA : pyGetD (.obj ikvs) "fields" (.obj []) = .ok (.obj fkvs) := by
    rw [← hfld]; rfl
  have hB : pyGetD (.obj fkvs) "status" (.obj []) = .ok (.obj skvs) := by
    rw [← hst]; rfl
  have hD : find_date_fields (.obj ikvs) = .ok (find_date_fields_pure fkvs) :=
    find_date_fields_on_dict ikvs fkvs hfld
  unfold past_start_open_step
  rw [hA, exbind_ok, hB, exbind_ok,
    show pyGetD (.obj skvs) "name" (.str "") =
      .ok (jGetD (.obj skvs) "name" (.str "")) from rfl, exbind_ok]
  cases hnv : jGetD (.obj skvs) "name" (.str "") with
  | str ss => ?_
  | nul => exact ⟨none, rfl⟩
  | bool b =>
    rw [hnv] at hsName
    have hb : b = false := by simpa [strOrFalsy, JVal.truthy] using hsName
    subst hb
    exact ⟨none, by simp [JVal.truthy, Pure.pure, Except.pure]⟩
  | num n =>
    rw [hnv] at hsName
    have hn : n = 0 := by simpa [strOrFalsy, JVal.truthy] using hsName
    subst hn
    exact ⟨none, by simp [JVal.truthy, Pure.pure, Except.pure]⟩
  | arr xs =>
    rw [hnv] at hsName
    have hx : xs = [] := by simpa [strOrFalsy, JVal.truthy] using hsName
    subst hx
    exact ⟨none, by simp [JVal.truthy, Pure.pure, Except.pure]⟩
  | obj okvs =>
    rw [hnv] at hsName
    have hx : okvs = [] := by simpa [strOrFalsy, JVal.truthy] using hsName
    subst hx
    exact ⟨none, by simp [JVal.truthy, Pure.pure, Except.pure]⟩
  by_cases hse : ss = ""
  · subst hse
    exact ⟨none, by simp [JVal.truthy, Pure.pure, Except.pure]⟩
  · have htr : (JVal.str ss).truthy = true := by simp [JVal.truthy, hse]
    rw [htr]
    simp only [Bool.not_true, Bool.false_eq_true, if_false, pyStrMethod,
      exbind_ok]
    by_cases hopen : String.mk (chLower (chStrip ss.data)) = "open"
    · simp only [hopen, ne_eq, not_true_eq_false, if_false]
      rw [hD, exbind_ok]
      cases hstart : (find_date_fields_pure fkvs).1 with
      | none => exact ⟨none, rfl⟩
      | some sv =>
        rcases find_start_mem fkvs sv hstart with ⟨q, hqmem, hqv⟩
        rcases dateFieldsOf_val_str fkvs q hqmem with ⟨s, hqs, hsne⟩
        rw [hqv, hqs]
        have htr2 : (JVal.str s).truthy = true := by simp [JVal.truthy, hsne]
        simp only [htr2, Bool.not_true, Bool.false_eq_true, if_false,
          parse_date_on_str s hsne, exbind_ok]
        cases hpd : parse_date_str s with
        | none => exact ⟨none, rfl⟩
        | some d =>
          by_cases hd : d < today
          · simp only [hd, if_true]
            rcases createdDateOf_ok
                ((alistFind fkvs "created").getD (.str "")) hcreated with
              ⟨cd, hcd⟩
            rcases creatorNameOf_ok ckvs with ⟨cn, hcn⟩
            simp only [show pyGetD (.obj ikvs) "key" (.str "") =
                .ok ((alistFind ikvs "key").getD (.str "")) from rfl,
              show pyGetD (.obj fkvs) "summary" (.str "") =
                .ok ((alistFind fkvs "summary").getD (.str "")) from rfl,
              show pyGetD (.obj fkvs) "created" (.str "") =
                .ok ((alistFind fkvs "created").getD (.str "")) from rfl,
              hcd,
              show pyGetD (.obj fkvs) "creator" (.obj []) =
                .ok (.obj ckvs) by rw [← hck]; rfl,
              hcn, exbind_ok, expure_bind]
            exact ⟨_, rfl⟩
          · simp only [hd, if_false]
            exact ⟨none, rfl⟩
    · simp only [ne_eq, hopen, not_false_eq_true, if_true]
      exact ⟨none, rfl⟩

/-! ### Claims about robustness of the quality-analysis layer -/

/-- Claim C8 counterexample: an issue whose `status` field is null makes
`get_issues_with_past_start_date_open` raise `AttributeError`
(`fields.get("status", {})` returns `None`, on which `.get("name", "")` is
called), so the quality-analysis layer does raise for a malformed null
nested object. -/
theorem C8_null_status_raises_counterexample :
    get_issues_with_past_start_date_open (daysFromCivil 2024 1 1)
      [JVal.obj [("fields", JVal.obj [("status", JVal.nul)])]] =
      .error .attributeError := rfl

/-- Claim C8 (amended): the quality-analysis layer absorbs parse and
heuristic failures — an unparsable date string never makes `parse_date`
raise, an unparsable custom-field suffix never makes `find_date_fields`
raise, and `get_issues_with_past_start_date_open` never raises over issues
whose nested objects are well shaped — but a null nested object (`status`,
`fields`, `creator`) does raise `AttributeError`, so the no-raise guarantee
holds only for parse/heuristic failures, not for arbitrary malformation. -/
theorem C8_quality_layer_robustness (today : Int) :
    (∀ v : JVal, strOrFalsy v = true → ∃ r, parse_date v = .ok r) ∧
    (∀ ikvs fkvs : List (String × JVal),
      (alistFind ikvs "fields").getD (.obj []) = .obj fkvs →
      ∃ r, find_date_fields (.obj ikvs) = .ok r) ∧
    (∀ issues : List JVal, (∀ i ∈ issues, pastStartWF i = true) →
      ∃ rows, get_issues_with_past_start_date_open today issues = .ok rows) := by
  refine ⟨?_, ?_, ?_⟩
  · intro v hv
    cases v with
    | str s =>
      by_cases hs : s = ""
      · subst hs
        exact ⟨none, rfl⟩
      · exact ⟨parse_date_str s, parse_date_on_str s hs⟩
    | nul => exact ⟨none, rfl⟩
    | bool b =>
      have hb : b = false := by simpa [strOrFalsy, JVal.truthy] using hv
      subst hb
      exact ⟨none, rfl⟩
    | num n =>
      have hn : n = 0 := by simpa [strOrFalsy, JVal.truthy] using hv
      subst hn
      exact ⟨none, by simp [parse_date, JVal.truthy, Pure.pure, Except.pure]⟩
    | arr xs =>
      have hx : xs = [] := by simpa [strOrFalsy, JVal.truthy] using hv
      subst hx
      exact ⟨none, rfl⟩
    | obj kvs =>
      have hx : kvs = [] := by simpa [strOrFalsy, JVal.truthy] using hv
      subst hx
      exact ⟨none, rfl⟩
  · intro ikvs fkvs hf
    exact ⟨_, find_date_fields_on_dict ikvs fkvs hf⟩
  · intro issues
    suffices h : ∀ acc : List PastStartRow, (∀ i ∈ issues, pastStartWF i = true) →
        ∃ rows, issues.foldlM (fun acc issue => do
          let r ← past_start_open_step today issue
          pure (match r with | some row => acc ++ [row] | none => acc)) acc =
          .ok rows by
      intro hall
      exact h [] hall
    induction issues with
    | nil => intro acc _; exact ⟨acc, rfl⟩
    | cons i rest ih =>
      intro acc hall
      rcases past_start_open_step_ok today i (hall i (by simp)) with ⟨r, hr⟩
      rw [List.foldlM_cons]
      simp only [hr, exbind_ok, expure_bind]
      exact ih _ (fun j hj => hall j (List.mem_cons_of_mem i hj))

/-- Closed witness for the amended C8: an unparsable date string is
absorbed, and a well-shaped issue list is analyzed without an exception. -/
theorem C8_quality_layer_robustness_witness :
    (∃ r, parse_date (.str "not-a-date") = .ok r) ∧
    (∃ rows, get_issues_with_past_start_date_open (daysFromCivil 2024 1 1)
      [pastStartWitnessIssue] = .ok rows) :=
  ⟨(C8_quality_layer_robustness 0).1 (.str "not-a-date") rfl,
   (C8_quality_layer_robustness (daysFromCivil 2024 1 1)).2.2
     [pastStartWitnessIssue]
     (by
      intro i hi
      rw [List.mem_singleton] at hi
      subst hi
      rfl)⟩

/-! ### Claim about the parent-hierarchy validator -/

/-- Claim C4: against the static expectation table, an Epic is correctly
linked iff its parent's issue-type name is `Initiative`; Story, Task, Bug,
Spike and Documentation iff the parent is an `Epic`; Sub-task iff the
parent is a `Story` or `Task`; an absent parent is always incorrect; and a
type with no required parent reports no violation whatever the parent. -/
theorem C4_parent_hierarchy (t : String) (parent pt : JVal)
    (hp : parent.truthy = true) (hpt : parentTypeOf parent = .ok pt) :
    has_correct_parent "Epic" parent = .ok (pyEqStr pt "Initiative") ∧
    (∀ t2 ∈ (["Story", "Task", "Bug", "Spike", "Documentation"] : List String),
      has_correct_parent t2 parent = .ok (pyEqStr pt "Epic")) ∧
    has_correct_parent "Sub-task" parent =
      .ok (pyEqStr pt "Story" || pyEqStr pt "Task") ∧
    has_correct_parent t JVal.nul = .ok false ∧
    (get_expected_parent_type t = none →
      parentViolation t parent = .ok false ∧
      parentViolation t JVal.nul = .ok false) := by
  refine ⟨?_, ?_, ?_, ?_, ?_⟩
  · simp [has_correct_parent, hp, hpt, Bind.bind, Except.bind, Pure.pure,
      Except.pure]
  · intro t2 ht2
    simp only [List.mem_cons, List.not_mem_nil, or_false] at ht2
    rcases ht2 with rfl | rfl | rfl | rfl | rfl <;>
      simp [has_correct_parent, hp, hpt, Bind.bind, Except.bind, Pure.pure,
        Except.pure, List.contains]
  · simp [has_correct_parent, hp, hpt, Bind.bind, Except.bind, Pure.pure,
      Except.pure]
  · simp [has_correct_parent, JVal.truthy, Pure.pure, Except.pure]
  · intro hnone
    constructor <;> simp [parentViolation, hnone, Pure.pure, Except.pure]

/-- Closed witness for C4: a truthy parent whose issue-type name is
`Initiative`, checked for the parentless type `Initiative`. -/
theorem C4_parent_hierarchy_witness :
    (JVal.obj [("fields", JVal.obj [("issuetype", JVal.obj
        [("name", JVal.str "Initiative")])])]).truthy = true ∧
    parentTypeOf (JVal.obj [("fields", JVal.obj [("issuetype", JVal.obj
        [("name", JVal.str "Initiative")])])]) = .ok (.str "Initiative") ∧
    (has_correct_parent "Epic" (JVal.obj [("fields", JVal.obj [("issuetype",
        JVal.obj [("name", JVal.str "Initiative")])])]) =
      .ok (pyEqStr (.str "Initiative") "Initiative") ∧
    (∀ t2 ∈ (["Story", "Task", "Bug", "Spike", "Documentation"] : List String),
      has_correct_parent t2 (JVal.obj [("fields", JVal.obj [("issuetype",
        JVal.obj [("name", JVal.str "Initiative")])])]) =
        .ok (pyEqStr (.str "Initiative") "Epic")) ∧
    has_correct_parent "Sub-task" (JVal.obj [("fields", JVal.obj [("issuetype",
        JVal.obj [("name", JVal.str "Initiative")])])]) =
      .ok (pyEqStr (.str "Initiative") "Story" ||
        pyEqStr (.str "Initiative") "Task") ∧
    has_correct_parent "Initiative" JVal.nul = .ok false ∧
    (get_expected_parent_type "Initiative" = none →
      parentViolation "Initiative" (JVal.obj [("fields", JVal.obj [("issuetype",
        JVal.obj [("name", JVal.str "Initiative")])])]) = .ok false ∧
      parentViolation "Initiative" JVal.nul = .ok false)) :=
  ⟨rfl, rfl, C4_parent_hierarchy "Initiative" _ _ rfl rfl⟩

/-! ### Claims about percentages and the quality-analysis cache -/

/-- Claim C9 counterexample: on an empty issue collection the standalone
analyzer's very first percentage divides by `total_issues = 0` and raises
`ZeroDivisionError` instead of exposing 0%. -/
theorem C9_analyze_divide_by_zero_counterexample :
    analyze_without_parent_stats [] = .error .zeroDivisionError := rfl

/-- Claim C9 (amended): each count of `get_quality_analysis` is exposed
with percentage count/total*100 and a guard making it 0 on an empty
collection; the standalone analyzer computes the same ratio unguarded, so
its percentage satisfies the formula whenever it is produced at all but
faults on the empty collection. -/
theorem C9_percentages (today : Int) (issues : List JVal) (r : QualityResult)
    (h : compute_quality_analysis today issues = .ok r) :
    (r.total_issues = issues.length ∧
     (issues.length = 0 →
       r.past_start_open_percentage = 0 ∧
       r.in_progress_no_assignee_percentage = 0 ∧
       r.waiting_for_release_percentage = 0) ∧
     (0 < issues.length →
       r.past_start_open_percentage =
         (r.past_start_open_count : ℚ) / r.total_issues * 100 ∧
       r.in_progress_no_assignee_percentage =
         (r.in_progress_no_assignee_count : ℚ) / r.total_issues * 100 ∧
       r.waiting_for_release_percentage =
         (r.waiting_for_release_count : ℚ) / r.total_issues * 100)) ∧
    (∀ issues2 : List JVal, ∀ cnt : Nat, ∀ pct : ℚ,
      analyze_without_parent_stats issues2 = .ok (cnt, pct) →
      issues2 ≠ [] ∧ pct = (cnt : ℚ) / issues2.length * 100) := by
  constructor
  · unfold compute_quality_analysis at h
    cases h1 : get_issues_with_past_start_date_open today issues with
    | error e => rw [h1, exbind_err] at h; exact Except.noConfusion h
    | ok l1 =>
      rw [h1, exbind_ok] at h
      cases h2 : get_in_progress_issues_without_assignee issues with
      | error e => rw [h2, exbind_err] at h; exact Except.noConfusion h
      | ok l2 =>
        rw [h2, exbind_ok] at h
        cases h3 : get_issues_waiting_for_release issues with
        | error e => rw [h3, exbind_err] at h; exact Except.noConfusion h
        | ok l3 =>
          rw [h3, exbind_ok] at h
          injection h with h5
          subst h5
          refine ⟨rfl, ?_, ?_⟩
          · intro hlen
            simp [hlen]
          · intro hlen
            have hpos : issues.length > 0 := hlen
            simp [hpos]
  · intro issues2 cnt pct h2
    unfold analyze_without_parent_stats at h2
    cases hf : without_parent_count issues2 with
    | error e => rw [hf, exbind_err] at h2; exact Except.noConfusion h2
    | ok n =>
      rw [hf, exbind_ok] at h2
      by_cases hz : (issues2.length : ℚ) = 0
      · rw [show pyDiv (n : ℚ) (issues2.length : ℚ) =
            .error .zeroDivisionError by simp [pyDiv, hz]] at h2
        rw [exbind_err] at h2
        exact Except.noConfusion h2
      · rw [show pyDiv (n : ℚ) (issues2.length : ℚ) =
            .ok ((n : ℚ) / (issues2.length : ℚ)) by simp [pyDiv, hz]] at h2
        rw [exbind_ok] at h2
        injection h2 with h6
        injection h6 with h7 h8
        constructor
        · intro hnil
          subst hnil
          exact hz (by norm_num)
        · rw [← h7, ← h8]
      
/-- Closed witness for the amended C9 at the empty collection. -/
theorem C9_percentages_witness :
    compute_quality_analysis 0 [] = .ok ⟨0, 0, 0, 0, 0, 0, 0⟩ ∧
    ((QualityResult.mk 0 0 0 0 0 0 0).total_issues = ([] : List JVal).length ∧
     (([] : List JVal).length = 0 →
       (QualityResult.mk 0 0 0 0 0 0 0).past_start_open_percentage = 0 ∧
       (QualityResult.mk 0 0 0 0 0 0 0).in_progress_no_assignee_percentage = 0 ∧
       (QualityResult.mk 0 0 0 0 0 0 0).waiting_for_release_percentage = 0) ∧
     (0 < ([] : List JVal).length →
       (QualityResult.mk 0 0 0 0 0 0 0).past_start_open_percentage =
         ((QualityResult.mk 0 0 0 0 0 0 0).past_start_open_count : ℚ) /
           (QualityResult.mk 0 0 0 0 0 0 0).total_issues * 100 ∧
       (QualityResult.mk 0 0 0 0 0 0 0).in_progress_no_assignee_percentage =
         ((QualityResult.mk 0 0 0 0 0 0 0).in_progress_no_assignee_count : ℚ) /
           (QualityResult.mk 0 0 0 0 0 0 0).total_issues * 100 ∧
       (QualityResult.mk 0 0 0 0 0 0 0).waiting_for_release_percentage =
         ((QualityResult.mk 0 0 0 0 0 0 0).waiting_for_release_count : ℚ) /
           (QualityResult.mk 0 0 0 0 0 0 0).total_issues * 100)) ∧
    (∀ issues2 : List JVal, ∀ cnt : Nat, ∀ pct : ℚ,
      analyze_without_parent_stats issues2 = .ok (cnt, pct) →
      issues2 ≠ [] ∧ pct = (cnt : ℚ) / issues2.length * 100) :=
  ⟨rfl, C9_percentages 0 [] ⟨0, 0, 0, 0, 0, 0, 0⟩ rfl⟩

/-- Claim C10: once `get_quality_analysis` has filled its module-level
cache from a call with issues A, every later call returns that A-result
and leaves the state unchanged regardless of its own argument — the cache
is keyed on nothing — until `load_issues` observes a changed file
modification time and resets every cache, after which the next call
recomputes from its own argument. -/
theorem C10_quality_cache (today : Int) (stA : AppState)
    (hA : stA.quality_analysis_cache = none)
    (A : List JVal) (rA : QualityResult) (st1 : AppState)
    (h1 : get_quality_analysis today stA A = .ok (rA, st1)) :
    (∀ t2 : Int, ∀ B : List JVal,
      get_quality_analysis t2 st1 B = .ok (rA, st1)) ∧
    (∀ mtime : Int, ∀ contents : JVal, st1.file_mtime ≠ some mtime →
      ∃ st2, load_issues st1 true mtime contents = .ok (contents, st2) ∧
        st2.quality_analysis_cache = none ∧
        (∀ t2 : Int, ∀ B : List JVal,
          get_quality_analysis t2 st2 B =
            (compute_quality_analysis t2 B).map
              (fun r => (r, { st2 with quality_analysis_cache := some r })))) := by
  unfold get_quality_analysis at h1
  rw [hA] at h1
  cases hc : compute_quality_analysis today A with
  | error e => rw [hc, exbind_err] at h1; exact Except.noConfusion h1
  | ok r0 =>
    rw [hc, exbind_ok] at h1
    injection h1 with h2
    injection h2 with h3 h4
    subst h3
    have hst1 : st1.quality_analysis_cache = some r0 := by
      rw [← h4]
    have hfresh : ∀ (st2 : AppState), st2.quality_analysis_cache = none →
        ∀ t2 : Int, ∀ B : List JVal,
        get_quality_analysis t2 st2 B =
          (compute_quality_analysis t2 B).map
            (fun r => (r, { st2 with quality_analysis_cache := some r })) := by
      intro st2 h0 t2 B
      unfold get_quality_analysis
      rw [h0]
      cases hc2 : compute_quality_analysis t2 B with
      | error e => rw [exbind_err]; rfl
      | ok r2 => rw [exbind_ok]; rfl
    constructor
    · intro t2 B
      unfold get_quality_analysis
      rw [hst1]
    · intro mtime contents hmt
      refine ⟨⟨some contents, some mtime, [], [], none⟩, ?_, rfl, ?_⟩
      · unfold load_issues
        cases hic : st1.issues_cache with
        | none => rfl
        | some c =>
          simp only [Bool.not_true, Bool.false_eq_true, if_false]
          rw [if_pos hmt]
      · exact hfresh _ rfl

/-- Closed witness for C10: the empty state, first analyzed on the empty
collection. -/
theorem C10_quality_cache_witness :
    (AppState.mk none none [] [] none).quality_analysis_cache = none ∧
    get_quality_analysis 0 (AppState.mk none none [] [] none) [] =
      .ok (⟨0, 0, 0, 0, 0, 0, 0⟩,
        AppState.mk none none [] [] (some ⟨0, 0, 0, 0, 0, 0, 0⟩)) ∧
    ((∀ t2 : Int, ∀ B : List JVal,
      get_quality_analysis t2
        (AppState.mk none none [] [] (some ⟨0, 0, 0, 0, 0, 0, 0⟩)) B =
        .ok (⟨0, 0, 0, 0, 0, 0, 0⟩,
          AppState.mk none none [] [] (some ⟨0, 0, 0, 0, 0, 0, 0⟩))) ∧
    (∀ mtime : Int, ∀ contents : JVal,
      (AppState.mk none none [] []
        (some (QualityResult.mk 0 0 0 0 0 0 0))).file_mtime ≠ some mtime →
      ∃ st2, load_issues
          (AppState.mk none none [] [] (some ⟨0, 0, 0, 0, 0, 0, 0⟩))
          true mtime contents = .ok (contents, st2) ∧
        st2.quality_analysis_cache = none ∧
        (∀ t2 : Int, ∀ B : List JVal,
          get_quality_analysis t2 st2 B =
            (compute_quality_analysis t2 B).map
              (fun r => (r, { st2 with quality_analysis_cache := some r }))))) :=
  ⟨rfl, rfl,
    C10_quality_cache 0 (AppState.mk none none [] [] none) rfl []
      ⟨0, 0, 0, 0, 0, 0, 0⟩
      (AppState.mk none none [] [] (some ⟨0, 0, 0, 0, 0, 0, 0⟩)) rfl⟩

/-! ### Supporting lemmas for the changelog-resolver claim -/

theorem lookupStr_setKey_self (m : List (String × String)) (k v : String) :
    lookupStr (setKey m k v) k = some v := by
  induction m with
  | nil => simp [setKey, lookupStr]
  | cons p rest ih =>
    by_cases h : p.1 = k
    · simp [setKey, lookupStr, h]
    · rcases p with ⟨k2, v2⟩
      simp only at h
      simp [setKey, lookupStr, h, ih]

theorem lookupStr_setKey_ne (m : List (String × String)) (k k2 v : String)
    (h : k ≠ k2) : lookupStr (setKey m k2 v) k = lookupStr m k := by
  induction m with
  | nil => simp [setKey, lookupStr, Ne.symm h]
  | cons p rest ih =>
    rcases p with ⟨k3, v3⟩
    by_cases h3 : k3 = k2
    · subst h3
      simp [setKey, lookupStr, Ne.symm h]
    · simp [setKey, lookupStr, h3, ih]

theorem parse_created_num_shape (n : Int) :
    (∃ t ds, parse_created_num n = (some t, some ds)) ∨
    parse_created_num n = (none, none) := by
  simp only [parse_created_num]
  split <;> split
  · exact Or.inl ⟨_, _, rfl⟩
  · exact Or.inr rfl
  · exact Or.inl ⟨_, _, rfl⟩
  · exact Or.inr rfl

theorem parse_created_shape (v : JVal) :
    (∃ t ds, parse_created_to_date_str v = (some t, some ds)) ∨
    parse_created_to_date_str v = (none, none) := by
  cases v with
  | nul => exact Or.inr rfl
  | num n => exact parse_created_num_shape n
  | bool b => exact parse_created_num_shape (if b then 1 else 0)
  | str s => exact Or.inl ⟨_, _, rfl⟩
  | arr xs => exact Or.inl ⟨_, _, rfl⟩
  | obj kvs => exact Or.inl ⟨_, _, rfl⟩

theorem strOrFalsy_pyOr_str (v : JVal) (h : strOrFalsy v = true) :
    ∃ fs, pyOr v (.str "") = .str fs := by
  cases v with
  | str s =>
    unfold pyOr
    by_cases hs : (JVal.str s).truthy = true
    · rw [if_pos hs]; exact ⟨s, rfl⟩
    · rw [if_neg (by simpa using hs)]; exact ⟨"", rfl⟩
  | nul => exact ⟨"", rfl⟩
  | bool b =>
    have hb : b = false := by simpa [strOrFalsy, JVal.truthy] using h
    subst hb
    exact ⟨"", rfl⟩
  | num n =>
    have hn : n = 0 := by simpa [strOrFalsy, JVal.truthy] using h
    subst hn
    exact ⟨"", rfl⟩
  | arr xs =>
    have hx : xs = [] := by simpa [strOrFalsy, JVal.truthy] using h
    subst hx
    exact ⟨"", rfl⟩
  | obj kvs =>
    have hx : kvs = [] := by simpa [strOrFalsy, JVal.truthy] using h
    subst hx
    exact ⟨"", rfl⟩

theorem toValExtract_eq (kvs : List (String × JVal)) :
    toValExtract (.obj kvs) = .ok (toValSpec (.obj kvs)) := by
  unfold toValExtract toValSpec
  rw [show pyGetD (.obj kvs) "toString" .nul =
    .ok (jGetD (.obj kvs) "toString" .nul) from rfl, exbind_ok]
  rw [show pyGetD (.obj kvs) "to" .nul =
    .ok (jGetD (.obj kvs) "to" .nul) from rfl, exbind_ok]
  cases h0 : pyOr (jGetD (.obj kvs) "toString" .nul)
      (jGetD (.obj kvs) "to" .nul) with
  | obj okvs =>
    simp only [show pyGetD (JVal.obj okvs) "name" JVal.nul =
      .ok (jGetD (JVal.obj okvs) "name" JVal.nul) from rfl,
      show pyGetD (JVal.obj okvs) "value" JVal.nul =
      .ok (jGetD (JVal.obj okvs) "value" JVal.nul) from rfl,
      exbind_ok, expure_bind, Pure.pure, Except.pure]
  | nul => rfl
  | bool b => rfl
  | num n => rfl
  | str s2 => rfl
  | arr xs => rfl

theorem reprBest_snd (b : Option (Int × String)) :
    (reprBest b).2 = b.map (·.2) := by
  cases b with
  | none => rfl
  | some p => rfl

theorem pickBest_append (b : Option (Int × String))
    (l1 l2 : List (Int × String)) :
    pickBest b (l1 ++ l2) = pickBest (pickBest b l1) l2 := by
  induction l1 generalizing b with
  | nil => rfl
  | cons p rest ih =>
    rcases p with ⟨t, d⟩
    simp only [List.cons_append, pickBest]
    exact ih _

theorem pickBest_some_ne_none (l : List (Int × String)) :
    ∀ b : Int × String, pickBest (some b) l ≠ none := by
  induction l with
  | nil => intro b h; exact Option.noConfusion h
  | cons p rest ih =>
    intro b
    rcases p with ⟨t, d⟩
    rcases b with ⟨bt, bd⟩
    simp only [pickBest]
    by_cases h : bt < t
    · rw [if_pos h]; exact ih _
    · rw [if_neg h]; exact ih _

theorem pickBest_none_iff (l : List (Int × String)) :
    pickBest none l = none ↔ l = [] := by
  cases l with
  | nil => simp [pickBest]
  | cons p rest =>
    rcases p with ⟨t, d⟩
    simp only [pickBest]
    constructor
    · intro h
      exact absurd h (pickBest_some_ne_none rest (t, d))
    · intro h
      exact List.noConfusion h

theorem pickBest_some_spec (l : List (Int × String)) :
    ∀ (b : Int × String) (t : Int) (d : String),
      pickBest (some b) l = some (t, d) →
      ((t, d) ∈ l ∨ (t, d) = b) ∧ b.1 ≤ t ∧ ∀ p ∈ l, p.1 ≤ t := by
  induction l with
  | nil =>
    intro b t d h
    simp only [pickBest] at h
    injection h with h2
    subst h2
    exact ⟨Or.inr rfl, le_refl _, by simp⟩
  | cons p rest ih =>
    intro b t d h
    rcases p with ⟨t2, d2⟩
    rcases b with ⟨bt, bd⟩
    simp only [pickBest] at h
    by_cases hlt : bt < t2
    · rw [if_pos hlt] at h
      rcases ih (t2, d2) t d h with ⟨hm, hle, hall⟩
      refine ⟨?_, ?_, ?_⟩
      · rcases hm with hm | hm
        · exact Or.inl (List.mem_cons_of_mem _ hm)
        · exact Or.inl (hm ▸ List.mem_cons_self _ _)
      · exact le_trans (le_of_lt hlt) hle
      · intro q hq
        rcases List.mem_cons.mp hq with hq2 | hq2
        · subst hq2; exact hle
        · exact hall q hq2
    · rw [if_neg hlt] at h
      rcases ih (bt, bd) t d h with ⟨hm, hle, hall⟩
      refine ⟨?_, hle, ?_⟩
      · rcases hm with hm | hm
        · exact Or.inl (List.mem_cons_of_mem _ hm)
        · exact Or.inr hm
      · intro q hq
        rcases List.mem_cons.mp hq with hq2 | hq2
        · subst hq2
          exact le_trans (le_of_not_lt hlt) hle
        · exact hall q hq2

theorem pickBest_max (l : List (Int × String)) (t : Int) (d : String)
    (h : pickBest none l = some (t, d)) :
    (t, d) ∈ l ∧ ∀ p ∈ l, p.1 ≤ t := by
  cases l with
  | nil => exact absurd h (by simp [pickBest])
  | cons p rest =>
    rcases p with ⟨t2, d2⟩
    simp only [pickBest] at h
    rcases pickBest_some_spec rest (t2, d2) t d h with ⟨hm, hle, hall⟩
    refine ⟨?_, ?_⟩
    · rcases hm with hm | hm
      · exact List.mem_cons_of_mem _ hm
      · exact hm ▸ List.mem_cons_self _ _
    · intro q hq
      rcases List.mem_cons.mp hq with hq2 | hq2
      · subst hq2; exact hle
      · exact hall q hq2

theorem strMaxFold_append (acc : Option String) (l1 l2 : List String) :
    strMaxFold acc (l1 ++ l2) = strMaxFold (strMaxFold acc l1) l2 := by
  induction l1 generalizing acc with
  | nil => rfl
  | cons d rest ih =>
    simp only [List.cons_append, strMaxFold]
    exact ih _

theorem extract_items_fold_spec (sl : String) (t : Int) (ds : String) :
    ∀ (items : List JVal), items.all itemWF = true →
    ∀ b, extract_items_fold sl (some t) ds (reprBest b) items =
      .ok (reprBest (pickBest b
        ((items.filter (itemMatchB sl)).map (fun _ => (t, ds))))) := by
  intro items
  induction items with
  | nil => intro _ b; rfl
  | cons item rest ih =>
    intro hWF b
    simp only [List.all_cons, Bool.and_eq_true] at hWF
    obtain ⟨hi, hrest⟩ := hWF
    have hrec := ih hrest
    simp only [itemWF, Bool.and_eq_true] at hi
    obtain ⟨hio, hif⟩ := hi
    obtain ⟨kvs, rfl⟩ := isObjB_obj item hio
    obtain ⟨fs, hfs⟩ := strOrFalsy_pyOr_str _ hif
    simp only [extract_items_fold,
      show pyGetD (JVal.obj kvs) "field" JVal.nul =
        .ok (jGetD (JVal.obj kvs) "field" JVal.nul) from rfl,
      exbind_ok, hfs, pyStrMethod]
    by_cases hstat : String.mk (chLower (chStrip fs.data)) = "status"
    · rw [if_neg (not_not_intro hstat)]
      simp only [toValExtract_eq, exbind_ok]
      by_cases hmatch : String.mk (chLower (chStrip (pyStr (pyOr
          (toValSpec (JVal.obj kvs)) (JVal.str ""))).data)) = sl
      · rw [if_neg (not_not_intro hmatch)]
        have hIM : itemMatchB sl (JVal.obj kvs) = true := by
          simp only [itemMatchB, hfs]
          simp [hstat, hmatch]
        have hfil : List.filter (itemMatchB sl) (JVal.obj kvs :: rest) =
            JVal.obj kvs :: List.filter (itemMatchB sl) rest := by
          simp [List.filter_cons, hIM]
        rw [hfil]
        simp only [List.map_cons, pickBest]
        cases b with
        | none =>
          simp only [reprBest, tsGreater, exbind_ok, if_true]
          exact hrec (some (t, ds))
        | some bp =>
          rcases bp with ⟨bt, bd⟩
          simp only [reprBest, tsGreater, exbind_ok, decide_eq_true_eq]
          by_cases hlt : bt < t
          · rw [if_pos hlt, if_pos hlt]
            exact hrec (some (t, ds))
          · rw [if_neg hlt, if_neg hlt]
            exact hrec (some (bt, bd))
      · rw [if_pos hmatch]
        have hIM : itemMatchB sl (JVal.obj kvs) = false := by
          simp only [itemMatchB, hfs]
          simp [hmatch]
        have hfil : List.filter (itemMatchB sl) (JVal.obj kvs :: rest) =
            List.filter (itemMatchB sl) rest := by
          simp [List.filter_cons, hIM]
        rw [hfil]
        exact hrec b
    · rw [if_pos hstat]
      have hIM : itemMatchB sl (JVal.obj kvs) = false := by
        simp only [itemMatchB, hfs]
        simp [hstat]
      have hfil : List.filter (itemMatchB sl) (JVal.obj kvs :: rest) =
          List.filter (itemMatchB sl) rest := by
        simp [List.filter_cons, hIM]
      rw [hfil]
      exact hrec b

theorem extract_hist_fold_spec (sl : String) :
    ∀ (hl : List JVal), hl.all histWF = true →
    ∀ b, extract_hist_fold sl (reprBest b) hl =
      .ok (reprBest (pickBest b ((hl.map (histTrans sl)).flatten))) := by
  intro hl
  induction hl with
  | nil => intro _ b; rfl
  | cons h rest ih =>
    intro hWF b
    simp only [List.all_cons, Bool.and_eq_true] at hWF
    obtain ⟨hh, hrest⟩ := hWF
    have hrec := ih hrest
    simp only [histWF, Bool.and_eq_true] at hh
    obtain ⟨hho, hhi⟩ := hh
    obtain ⟨kvs, rfl⟩ := isObjB_obj h hho
    rcases parse_created_shape (jGetD (JVal.obj kvs) "created" JVal.nul) with
      ⟨t, ds, hp⟩ | hp
    · cases hpi : pyOr (jGetD (JVal.obj kvs) "items" JVal.nul)
          (JVal.arr []) with
      | arr il =>
        simp only [hpi] at hhi
        simp only [extract_hist_fold,
          show pyGetD (JVal.obj kvs) "created" JVal.nul =
            .ok (jGetD (JVal.obj kvs) "created" JVal.nul) from rfl,
          show pyGetD (JVal.obj kvs) "items" JVal.nul =
            .ok (jGetD (JVal.obj kvs) "items" JVal.nul) from rfl,
          exbind_ok, hp, hpi, pyIterate]
        rw [extract_items_fold_spec sl t ds il hhi b, exbind_ok]
        simp only [List.map_cons, List.flatten_cons, histTrans, hp,
          itemsListOf, hpi, pickBest_append]
        exact hrec (pickBest b
          (List.map (fun _ => (t, ds)) (List.filter (itemMatchB sl) il)))
      | nul => simp [hpi] at hhi
      | bool b2 => simp [hpi] at hhi
      | num n2 => simp [hpi] at hhi
      | str s2 => simp [hpi] at hhi
      | obj o2 => simp [hpi] at hhi
    · simp only [extract_hist_fold,
        show pyGetD (JVal.obj kvs) "created" JVal.nul =
          .ok (jGetD (JVal.obj kvs) "created" JVal.nul) from rfl,
        exbind_ok, hp]
      simp only [List.map_cons, List.flatten_cons, histTrans, hp,
        List.nil_append]
      exact hrec b

theorem extract_arr_eq_spec (sl : String) (hl : List JVal)
    (hWF : hl.all histWF = true) :
    extract_status_since_from_histories (.arr hl) sl =
      .ok (extractSpec sl hl) := by
  have hit : pyIterate (pyOr (JVal.arr hl) (JVal.arr [])) = .ok hl := by
    cases hl with
    | nil => rfl
    | cons x xs => rfl
  have hfold := extract_hist_fold_spec sl hl hWF none
  unfold extract_status_since_from_histories
  rw [hit, exbind_ok,
    show ((none, none) : Option Int × Option String) = reprBest none from rfl,
    hfold, exbind_ok]
  simp only [reprBest_snd, extractSpec, Pure.pure, Except.pure]

theorem exfoldl_cons {α β : Type} (f : β → α → Except PyErr β) (b : β)
    (a : α) (l : List α) :
    (a :: l).foldlM f b = f b a >>= fun b2 => l.foldlM f b2 := rfl

theorem bulk_log_step_spec (sl : String)
    (id_to_key m : List (String × String)) (log : JVal)
    (hWF : logWF log = true) :
    bulk_log_step sl id_to_key m log =
      .ok (bulkLogUpdate sl id_to_key m log) := by
  simp only [logWF, Bool.and_eq_true] at hWF
  obtain ⟨hlo, hlh⟩ := hWF
  obtain ⟨kvs, rfl⟩ := isObjB_obj log hlo
  cases hpi : pyOr (jGetD (JVal.obj kvs) "changeHistories" JVal.nul)
      (pyOr (jGetD (JVal.obj kvs) "values" JVal.nul) (JVal.arr [])) with
  | arr l =>
    simp only [hpi] at hlh
    simp only [bulk_log_step, bulkLogUpdate, logKeyOf, logHistsOf,
      show pyGetD (JVal.obj kvs) "issueId" JVal.nul =
        .ok (jGetD (JVal.obj kvs) "issueId" JVal.nul) from rfl,
      show pyGetD (JVal.obj kvs) "changeHistories" JVal.nul =
        .ok (jGetD (JVal.obj kvs) "changeHistories" JVal.nul) from rfl,
      show pyGetD (JVal.obj kvs) "values" JVal.nul =
        .ok (jGetD (JVal.obj kvs) "values" JVal.nul) from rfl,
      exbind_ok, hpi, extract_arr_eq_spec sl l hlh, expure_bind]
    cases lookupStr id_to_key (pyStr (pyOr
        (jGetD (JVal.obj kvs) "issueId" JVal.nul) (JVal.str ""))) with
    | none => rfl
    | some key =>
      cases extractSpec sl l with
      | none => rfl
      | some ds => rfl
  | nul => simp [hpi] at hlh
  | bool b2 => simp [hpi] at hlh
  | num n2 => simp [hpi] at hlh
  | str s2 => simp [hpi] at hlh
  | obj o2 => simp [hpi] at hlh

theorem lookupStr_bulkLogUpdate (sl : String)
    (id_to_key m : List (String × String)) (log : JVal) (key : String) :
    lookupStr (bulkLogUpdate sl id_to_key m log) key =
      strMaxFold (lookupStr m key)
        (logDateFor sl id_to_key key log).toList := by
  cases hk : logKeyOf id_to_key log with
  | none => simp [bulkLogUpdate, logDateFor, hk, strMaxFold]
  | some k2 =>
    cases hd : extractSpec sl (logHistsOf log) with
    | none => simp [bulkLogUpdate, logDateFor, hk, hd, strMaxFold]
    | some ds =>
      by_cases hkey : k2 = key
      · subst hkey
        simp only [bulkLogUpdate, logDateFor, hk, hd, if_pos rfl,
          Option.toList]
        cases hacc : lookupStr m k2 with
        | none =>
          simp only [hacc]
          simp [lookupStr_setKey_self, strMaxFold]
        | some old =>
          by_cases hlt : pyStrLt old ds = true
          · simp [hacc, hlt, lookupStr_setKey_self, strMaxFold]
          · simp [hacc, hlt, strMaxFold]
      · simp only [bulkLogUpdate, logDateFor, hk, hd,
          if_neg (fun hc : some k2 = some key => hkey (by injection hc)),
          Option.toList]
        cases hc : (match lookupStr m k2 with
          | none => true
          | some old => pyStrLt old ds) with
        | true =>
          simp [hc, lookupStr_setKey_ne m key k2 ds (Ne.symm hkey),
            strMaxFold]
        | false => simp [hc, strMaxFold]

theorem pageDatesFor_eq (sl : String) (id_to_key : List (String × String))
    (key : String) (page : List JVal) :
    pageDatesFor sl id_to_key key page =
      page.filterMap (logDateFor sl id_to_key key) := rfl

theorem page_fold_spec (sl : String) (id_to_key : List (String × String)) :
    ∀ (page : List JVal), (∀ log ∈ page, logWF log = true) →
    ∀ m, ∃ m2, page.foldlM (bulk_log_step sl id_to_key) m = .ok m2 ∧
      ∀ key, lookupStr m2 key =
        strMaxFold (lookupStr m key) (pageDatesFor sl id_to_key key page) := by
  intro page
  induction page with
  | nil =>
    intro _ m
    exact ⟨m, rfl, fun key => rfl⟩
  | cons log rest ih =>
    intro hWF m
    have hlog := hWF log (List.mem_cons_self _ _)
    obtain ⟨m2, hm2, hlook⟩ :=
      ih (fun l hl => hWF l (List.mem_cons_of_mem _ hl))
      (bulkLogUpdate sl id_to_key m log)
    refine ⟨m2, ?_, ?_⟩
    · rw [exfoldl_cons, bulk_log_step_spec sl id_to_key m log hlog,
        exbind_ok]
      exact hm2
    · intro key
      rw [hlook key, lookupStr_bulkLogUpdate, pageDatesFor_eq,
        pageDatesFor_eq, List.filterMap_cons]
      cases hld : logDateFor sl id_to_key key log with
      | none => simp [Option.toList, strMaxFold]
      | some d => simp [Option.toList, strMaxFold]

theorem bulkDatesFor_cons (sl : String) (id_to_key : List (String × String))
    (key : String) (page : List JVal) (rest : List (List JVal)) :
    bulkDatesFor sl id_to_key key (page :: rest) =
      pageDatesFor sl id_to_key key page ++
        bulkDatesFor sl id_to_key key rest := by
  simp [bulkDatesFor, pageDatesFor, List.flatten_cons, List.filterMap_append]

theorem pages_fold_spec (sl : String) (id_to_key : List (String × String)) :
    ∀ (pages : List (List JVal)),
      (∀ page ∈ pages, ∀ log ∈ page, logWF log = true) →
    ∀ m0, ∃ m2,
      pages.foldlM (fun m page =>
        page.foldlM (bulk_log_step sl id_to_key) m) m0 = .ok m2 ∧
      ∀ key, lookupStr m2 key =
        strMaxFold (lookupStr m0 key)
          (bulkDatesFor sl id_to_key key pages) := by
  intro pages
  induction pages with
  | nil =>
    intro _ m0
    exact ⟨m0, rfl, fun key => rfl⟩
  | cons page rest ih =>
    intro hWF m0
    obtain ⟨m1, hm1, hl1⟩ :=
      page_fold_spec sl id_to_key page (hWF page (List.mem_cons_self _ _)) m0
    obtain ⟨m2, hm2, hl2⟩ :=
      ih (fun p hp => hWF p (List.mem_cons_of_mem _ hp)) m1
    refine ⟨m2, ?_, ?_⟩
    · rw [exfoldl_cons, hm1, exbind_ok]
      exact hm2
    · intro key
      rw [hl2 key, hl1 key, bulkDatesFor_cons, strMaxFold_append]

theorem fallback_fold_spec (sl : String)
    (perIssueHistories : String → List JVal)
    (hper : ∀ k, (perIssueHistories k).all histWF = true) :
    ∀ (miss : List String) (acc : List (String × String)),
    ∃ final, miss.foldlM (fun m key => do
        let dopt ← extract_status_since_from_histories
          (.arr (perIssueHistories key)) sl
        pure (match dopt with
          | some ds => setKey m key ds
          | none => m)) acc = .ok final ∧
      ∀ key, lookupStr final key =
        if key ∈ miss ∧ (fallbackBest sl perIssueHistories key).isSome = true
        then fallbackBest sl perIssueHistories key else lookupStr acc key := by
  intro miss
  induction miss with
  | nil =>
    intro acc
    refine ⟨acc, rfl, fun key => ?_⟩
    simp
  | cons key0 rest ih =>
    intro acc
    have harr := extract_arr_eq_spec sl (perIssueHistories key0) (hper key0)
    cases hfb : extractSpec sl (perIssueHistories key0) with
    | none =>
      obtain ⟨final, hf, hlook⟩ := ih acc
      refine ⟨final, ?_, ?_⟩
      · rw [exfoldl_cons]
        simp only [harr, hfb, exbind_ok, expure_bind]
        exact hf
      · intro key
        rw [hlook key]
        by_cases hin : key ∈ rest ∧
            (fallbackBest sl perIssueHistories key).isSome = true
        · rw [if_pos hin, if_pos ⟨List.mem_cons_of_mem _ hin.1, hin.2⟩]
        · rw [if_neg hin]
          by_cases hin2 : key ∈ key0 :: rest ∧
              (fallbackBest sl perIssueHistories key).isSome = true
          · exfalso
            rcases hin2 with ⟨hmem, hsome⟩
            rcases List.mem_cons.mp hmem with h2 | hmem2
            · subst h2
              have hfbk : fallbackBest sl perIssueHistories key = none := hfb
              rw [hfbk] at hsome
              simp at hsome
            · exact hin ⟨hmem2, hsome⟩
          · rw [if_neg hin2]
    | some ds =>
      obtain ⟨final, hf, hlook⟩ := ih (setKey acc key0 ds)
      have hfbk : fallbackBest sl perIssueHistories key0 = some ds := hfb
      refine ⟨final, ?_, ?_⟩
      · rw [exfoldl_cons]
        simp only [harr, hfb, exbind_ok, expure_bind]
        exact hf
      · intro key
        rw [hlook key]
        by_cases hin : key ∈ rest ∧
            (fallbackBest sl perIssueHistories key).isSome = true
        · rw [if_pos hin, if_pos ⟨List.mem_cons_of_mem _ hin.1, hin.2⟩]
        · rw [if_neg hin]
          by_cases hkey : key = key0
          · subst hkey
            rw [lookupStr_setKey_self,
              if_pos ⟨List.mem_cons_self _ _, by rw [hfbk]; rfl⟩]
            exact hfbk.symm
          · rw [lookupStr_setKey_ne acc key key0 ds hkey]
            by_cases hin2 : key ∈ key0 :: rest ∧
                (fallbackBest sl perIssueHistories key).isSome = true
            · exfalso
              rcases hin2 with ⟨hmem, hsome⟩
              rcases List.mem_cons.mp hmem with h2 | hmem2
              · exact hkey h2
              · exact hin ⟨hmem2, hsome⟩
            · rw [if_neg hin2]

/-- **C7**: `_fetch_changelog_status_since` resolves each requested issue
key by the bulk path first and, exactly for the keys the bulk path leaves
unresolved, by the per-issue fallback, which applies the same
most-recent-transition reduction (`extractSpec`); for well-formed changelog
data the call never errors, a key with no transition on either path is
simply absent from the result map (its lookup is `none`, never a zero
value), and the reduction underlying both paths returns the date of a
transition with the greatest timestamp, `none` only on an empty transition
list. -/
theorem C7_changelog_resolution (issue_keys : List String)
    (id_to_key : List (String × String)) (target_status : String)
    (bulkPages : List (List JVal)) (perIssueHistories : String → List JVal)
    (hbulk : ∀ page ∈ bulkPages, ∀ log ∈ page, logWF log = true)
    (hper : ∀ k, (perIssueHistories k).all histWF = true) :
    ∃ m, fetch_changelog_status_since issue_keys id_to_key target_status
        true bulkPages perIssueHistories = .ok m ∧
      (∀ key ∈ issue_keys, lookupStr m key =
        (match bulkBest (String.mk (chLower (chStrip target_status.data)))
            id_to_key key bulkPages with
         | some d => some d
         | none => fallbackBest
             (String.mk (chLower (chStrip target_status.data)))
             perIssueHistories key)) ∧
      (∀ key ∈ issue_keys, (lookupStr m key = none ↔
        bulkBest (String.mk (chLower (chStrip target_status.data)))
          id_to_key key bulkPages = none ∧
        fallbackBest (String.mk (chLower (chStrip target_status.data)))
          perIssueHistories key = none)) ∧
      (∀ l : List (Int × String),
        (pickBest none l = none ↔ l = []) ∧
        (∀ t dd, pickBest none l = some (t, dd) →
          (t, dd) ∈ l ∧ ∀ p ∈ l, p.1 ≤ t)) := by
  cases issue_keys with
  | nil =>
    refine ⟨[], rfl, ?_, ?_, ?_⟩
    · intro key hk
      exact absurd hk (List.not_mem_nil key)
    · intro key hk
      exact absurd hk (List.not_mem_nil key)
    · intro l
      exact ⟨pickBest_none_iff l, fun t dd h => pickBest_max l t dd h⟩
  | cons k0 krest =>
    obtain ⟨m1, hm1, hl1⟩ := pages_fold_spec
      (String.mk (chLower (chStrip target_status.data))) id_to_key
      bulkPages hbulk []
    obtain ⟨mf, hmf, hlf⟩ := fallback_fold_spec
      (String.mk (chLower (chStrip target_status.data)))
      perIssueHistories hper
      ((k0 :: krest).filter (fun k => (lookupStr m1 k).isNone)) m1
    have hres : ∀ key ∈ k0 :: krest, lookupStr mf key =
        (match bulkBest (String.mk (chLower (chStrip target_status.data)))
            id_to_key key bulkPages with
         | some d => some d
         | none => fallbackBest
             (String.mk (chLower (chStrip target_status.data)))
             perIssueHistories key) := by
      intro key hk
      have hb : lookupStr m1 key =
          bulkBest (String.mk (chLower (chStrip target_status.data)))
            id_to_key key bulkPages := hl1 key
      rw [hlf key]
      cases hbb : bulkBest (String.mk (chLower (chStrip target_status.data)))
          id_to_key key bulkPages with
      | some d =>
        have hnotmiss : key ∉ (k0 :: krest).filter
            (fun k => (lookupStr m1 k).isNone) := by
          intro hmem
          simp only [List.mem_filter, hb, hbb] at hmem
          simp at hmem
        rw [if_neg (fun hc => hnotmiss hc.1), hb, hbb]
      | none =>
        have hmiss : key ∈ (k0 :: krest).filter
            (fun k => (lookupStr m1 k).isNone) := by
          apply List.mem_filter.mpr
          refine ⟨hk, ?_⟩
          show (lookupStr m1 key).isNone = true
          rw [hb, hbb]
          rfl
        cases hfb : fallbackBest
            (String.mk (chLower (chStrip target_status.data)))
            perIssueHistories key with
        | some d =>
          rw [if_pos ⟨hmiss, rfl⟩]
        | none =>
          have hcond : ¬(key ∈ (k0 :: krest).filter
              (fun k => (lookupStr m1 k).isNone) ∧
              (none : Option String).isSome = true) := by
            intro hc
            simp at hc
          rw [if_neg hcond, hb, hbb]
    refine ⟨mf, ?_, hres, ?_, ?_⟩
    · unfold fetch_changelog_status_since
      rw [if_neg (by simp)]
      simp only [hm1, exbind_ok]
      exact hmf
    · intro key hk
      rw [hres key hk]
      cases bulkBest (String.mk (chLower (chStrip target_status.data)))
          id_to_key key bulkPages with
      | some d => simp
      | none => simp
    · intro l
      exact ⟨pickBest_none_iff l, fun t dd h => pickBest_max l t dd h⟩

/-- Witness for C7 at concrete data: BP-1 is resolved by the bulk page
(2024-02-01), BP-2 only by the per-issue fallback (2024-03-01). -/
theorem C7_changelog_resolution_witness :
    (∀ page ∈ [[c7log1]], ∀ log ∈ page, logWF log = true) ∧
    (∀ k, (c7perIssue k).all histWF = true) ∧
    (∃ m, fetch_changelog_status_since ["BP-1", "BP-2"] [("1001", "BP-1")]
          "Waiting for release" true [[c7log1]] c7perIssue = .ok m ∧
        lookupStr m "BP-1" = some "2024-02-01" ∧
        lookupStr m "BP-2" = some "2024-03-01") := by
  have hb : ∀ page ∈ [[c7log1]], ∀ log ∈ page, logWF log = true := by
    intro page hp log hl
    rw [List.mem_singleton] at hp
    subst hp
    rw [List.mem_singleton] at hl
    subst hl
    decide
  have hp2 : ∀ k, (c7perIssue k).all histWF = true := by
    intro k
    by_cases h : k = "BP-2"
    · subst h
      decide
    · simp [c7perIssue, h]
  obtain ⟨m, hm, hres, _, _⟩ := C7_changelog_resolution
    ["BP-1", "BP-2"] [("1001", "BP-1")] "Waiting for release"
    [[c7log1]] c7perIssue hb hp2
  refine ⟨hb, hp2, m, hm, ?_, ?_⟩
  · rw [hres "BP-1" (by simp)]
    decide
  · rw [hres "BP-2" (by simp)]
    decide

end JiraCheck
